import Mathlib

/-!
# Verification of the candle validation & consistency pipeline

A shallow embedding of the core candle-input pipeline of the repository:
- `CandleSecurityService` (sanitizer, threat screener, rate limiter),
- `CandleValidationService` (zod-based structural validator),
- `CandleInputCore` (save / undo / redo),
- `CandleAutocompleteService` (suggestion engine),
- `CandleIndexService` (byId / bySessionId / byTimestamp indices).

JavaScript strings are embedded as Lean `String` / `List Char`; JavaScript
numbers are embedded as exact values (`ℚ` extended with `NaN`/`±Infinity`
where the code can produce them).  JavaScript `Map`s are embedded as
association lists with JS `Map` semantics (insertion order preserved,
`set` updates in place or appends, `delete` removes the entry).
`s.includes(x)` is embedded as list membership of the character.
-/

set_option maxHeartbeats 1000000
set_option maxRecDepth 10000

namespace Candle

/-! ## CandleSecurityService.sanitizeNumericInput

Source: `src/services/candle/CandleSecurityService.ts`, lines 30–72.
The sanitizer operates on the character list of the input string, applying
in order: non-numeric stripping, multi-dot collapse, multi-minus collapse,
non-leading-minus removal, decimal-place truncation (8), length
truncation (20). -/

/-- `value.replace(/[^0-9.-]/g, '')` keeps exactly these characters. -/
def isNumericChar (c : Char) : Bool := c.isDigit || c == '.' || c == '-'

/-- `parts = s.split('.'); if (parts.length > 2) parts[0] + '.' + parts.slice(1).join('')`.
`parts.length > 2` is equivalent to the string containing at least two dots;
`parts[0]` is the prefix before the first dot and `parts.slice(1).join('')`
is the remainder after the first dot with all dots removed. -/
def collapseDots (l : List Char) : List Char :=
  if 2 ≤ l.count '.' then
    l.takeWhile (· ≠ '.') ++ '.' :: ((l.dropWhile (· ≠ '.')).tail.filter (· ≠ '.'))
  else l

/-- Multiple minus signs: keep only a leading one (lines 46–53).
`minusCount > 1` is the count condition; `hasLeadingMinus` is the head test. -/
def collapseMinus (l : List Char) : List Char :=
  if 2 ≤ l.count '-' then
    if l.head? = some '-' then '-' :: l.filter (· ≠ '-') else l.filter (· ≠ '-')
  else l

/-- `if (sanitized.includes('-') && !sanitized.startsWith('-')) remove all '-'`. -/
def stripNonLeadingMinus (l : List Char) : List Char :=
  if '-' ∈ l ∧ l.head? ≠ some '-' then l.filter (· ≠ '-') else l

/-- `const [integer, decimal] = sanitized.split('.'); integer + '.' + decimal.slice(0, 8)`:
`integer` is the prefix before the first dot, `decimal` is the slice between
the first and (if any) second dot. -/
def truncateDecimals (l : List Char) : List Char :=
  if '.' ∈ l then
    l.takeWhile (· ≠ '.') ++
      '.' :: ((((l.dropWhile (· ≠ '.')).tail).takeWhile (· ≠ '.')).take 8)
  else l

/-- The full sanitizer on character lists (lines 30–72). -/
def sanitizeListChar (l : List Char) : List Char :=
  (truncateDecimals (stripNonLeadingMinus (collapseMinus
    (collapseDots (l.filter isNumericChar))))).take 20

/-- `CandleSecurityService.sanitizeNumericInput` on strings. -/
def sanitizeNumericInput (s : String) : String :=
  ⟨sanitizeListChar s.data⟩

example : sanitizeNumericInput "1-2.3.4-5" = "12.345" := by decide
example : sanitizeNumericInput "<script>alert(1)</script>" = "1" := by decide
example : sanitizeNumericInput "-1.2" = "-1.2" := by decide
example : sanitizeNumericInput "--1.2" = "-1.2" := by decide
example : sanitizeNumericInput "1.234567891" = "1.23456789" := by decide

/-! ### Shape of sanitizer output (used for the idempotence proof, claim C7) -/

/-- The characters after the first dot (the "decimal part"). -/
def decimalPart (l : List Char) : List Char := (l.dropWhile (· ≠ '.')).tail

/-- Invariant satisfied by every sanitizer output, strong enough to show the
sanitizer is the identity on such strings. -/
structure SanitizedShape (l : List Char) : Prop where
  alphabet : ∀ c ∈ l, isNumericChar c = true
  oneDot : l.count '.' ≤ 1
  tailMinusFree : l.tail.count '-' = 0
  decimals : '.' ∈ l → (decimalPart l).length ≤ 8
  short : l.length ≤ 20

theorem count_eq_zero_of_all_ne {l : List Char} {a : Char}
    (h : ∀ c ∈ l, c ≠ a) : l.count a = 0 := by
  rw [List.count_eq_zero]
  intro hmem
  exact h a hmem rfl

theorem count_filter_ne {l : List Char} {a b : Char} (hab : a ≠ b) :
    (l.filter (· ≠ b)).count a = l.count a := by
  induction l with
  | nil => rfl
  | cons c t ih =>
    by_cases hc : c = b
    · subst hc
      rw [List.filter_cons_of_neg (by simp), ih, List.count_cons]
      simp [Ne.symm hab]
    · rw [List.filter_cons_of_pos (by simp [hc]), List.count_cons,
        List.count_cons, ih]

theorem mem_collapseDots {l : List Char} {c : Char} (h : c ∈ collapseDots l) :
    c ∈ l ∨ c = '.' := by
  unfold collapseDots at h
  split at h
  · rcases List.mem_append.mp h with h1 | h1
    · exact Or.inl ((List.takeWhile_sublist _).mem h1)
    · rcases List.mem_cons.mp h1 with h2 | h2
      · exact Or.inr h2
      · refine Or.inl ?_
        have := (List.filter_sublist (p := (· ≠ '.'))
          ((l.dropWhile (· ≠ '.')).tail)).mem h2
        exact ((List.tail_sublist _).trans (List.dropWhile_sublist _)).mem this
  · exact Or.inl h

theorem mem_collapseMinus {l : List Char} {c : Char} (h : c ∈ collapseMinus l) :
    c ∈ l ∨ c = '-' := by
  unfold collapseMinus at h
  split at h
  · split at h
    · rcases List.mem_cons.mp h with h1 | h1
      · exact Or.inr h1
      · exact Or.inl ((List.filter_sublist _).mem h1)
    · exact Or.inl ((List.filter_sublist _).mem h)
  · exact Or.inl h

theorem mem_stripNonLeadingMinus {l : List Char} {c : Char}
    (h : c ∈ stripNonLeadingMinus l) : c ∈ l := by
  unfold stripNonLeadingMinus at h
  split at h
  · exact (List.filter_sublist _).mem h
  · exact h

theorem mem_truncateDecimals {l : List Char} {c : Char}
    (h : c ∈ truncateDecimals l) : c ∈ l ∨ c = '.' := by
  unfold truncateDecimals at h
  split at h
  · rcases List.mem_append.mp h with h1 | h1
    · exact Or.inl ((List.takeWhile_sublist _).mem h1)
    · rcases List.mem_cons.mp h1 with h2 | h2
      · exact Or.inr h2
      · refine Or.inl ?_
        exact ((List.take_sublist _ _).trans ((List.takeWhile_sublist _).trans
          ((List.tail_sublist _).trans (List.dropWhile_sublist _)))).mem h2
  · exact Or.inl h

theorem sanitize_alphabet {l : List Char} :
    ∀ c ∈ sanitizeListChar l, isNumericChar c = true := by
  intro c hc
  unfold sanitizeListChar at hc
  have hc1 := (List.take_sublist _ _).mem hc
  rcases mem_truncateDecimals hc1 with h2 | h2
  · rcases mem_collapseMinus (mem_stripNonLeadingMinus h2) with h3 | h3
    · rcases mem_collapseDots h3 with h4 | h4
      · exact List.of_mem_filter h4
      · subst h4; rfl
    · subst h3; rfl
  · subst h2; rfl

theorem takeWhile_eq_self_of_all {p : Char → Bool} {l : List Char}
    (h : ∀ c ∈ l, p c = true) : l.takeWhile p = l := by
  induction l with
  | nil => rfl
  | cons c t ih =>
    rw [List.takeWhile_cons, h c (List.mem_cons_self c t), if_pos rfl,
      ih fun x hx => h x (List.mem_cons_of_mem c hx)]

theorem dropWhile_append_of_all {p : Char → Bool} {A r : List Char}
    (h : ∀ c ∈ A, p c = true) : (A ++ r).dropWhile p = r.dropWhile p := by
  induction A with
  | nil => rfl
  | cons c t ih =>
    rw [List.cons_append, List.dropWhile_cons, h c (List.mem_cons_self c t)]
    exact ih fun x hx => h x (List.mem_cons_of_mem c hx)

theorem takeWhile_ne_cons_self (a : Char) (t : List Char) :
    ((a :: t).takeWhile (· ≠ a)) = [] := by
  simp [List.takeWhile_cons]

theorem dropWhile_ne_cons_self (a : Char) (t : List Char) :
    ((a :: t).dropWhile (· ≠ a)) = a :: t := by
  simp [List.dropWhile_cons]

theorem takeWhile_ne_cons_of_ne {c a : Char} (h : c ≠ a) (t : List Char) :
    ((c :: t).takeWhile (· ≠ a)) = c :: t.takeWhile (· ≠ a) := by
  simp [List.takeWhile_cons, h]

theorem dropWhile_ne_cons_of_ne {c a : Char} (h : c ≠ a) (t : List Char) :
    ((c :: t).dropWhile (· ≠ a)) = t.dropWhile (· ≠ a) := by
  simp [List.dropWhile_cons, h]

theorem take_length_le_bound (l : List Char) (n : Nat) : (l.take n).length ≤ n := by
  rw [List.length_take]
  exact min_le_left _ _

theorem dropWhile_dot_decomp {l : List Char} (h : '.' ∈ l) :
    ∃ B, l.dropWhile (· ≠ '.') = '.' :: B := by
  induction l with
  | nil => cases h
  | cons c t ih =>
    by_cases hc : c = '.'
    · subst hc
      exact ⟨t, dropWhile_ne_cons_self '.' t⟩
    · rw [dropWhile_ne_cons_of_ne hc]
      exact ih (by rcases List.mem_cons.mp h with h1 | h1
                   · exact absurd h1.symm hc
                   · exact h1)

theorem tail_take_eq (l : List Char) (n : Nat) :
    (l.take n).tail = l.tail.take (n - 1) := by
  cases l with
  | nil => simp
  | cons c t => cases n <;> simp

theorem count_dot_collapseDots (l : List Char) : (collapseDots l).count '.' ≤ 1 := by
  unfold collapseDots
  split
  · rw [List.count_append, List.count_cons]
    have hA : (l.takeWhile (· ≠ '.')).count '.' = 0 :=
      count_eq_zero_of_all_ne fun c hc => by
        simpa using List.mem_takeWhile_imp hc
    have hB : (((l.dropWhile (· ≠ '.')).tail).filter (· ≠ '.')).count '.' = 0 :=
      count_eq_zero_of_all_ne fun c hc => by simpa using List.of_mem_filter hc
    rw [hA, hB]
    simp
  · omega

theorem count_dot_collapseMinus (l : List Char) :
    (collapseMinus l).count '.' = l.count '.' := by
  unfold collapseMinus
  split
  · split
    · rw [List.count_cons, count_filter_ne (by decide)]
      simp
    · exact count_filter_ne (by decide)
  · rfl

theorem count_dot_strip (l : List Char) :
    (stripNonLeadingMinus l).count '.' = l.count '.' := by
  unfold stripNonLeadingMinus
  split
  · exact count_filter_ne (by decide)
  · rfl

theorem count_dot_truncate {l : List Char} (h : l.count '.' ≤ 1) :
    (truncateDecimals l).count '.' ≤ 1 := by
  unfold truncateDecimals
  split
  · rw [List.count_append, List.count_cons]
    have hA : (l.takeWhile (· ≠ '.')).count '.' = 0 :=
      count_eq_zero_of_all_ne fun c hc => by
        simpa using List.mem_takeWhile_imp hc
    have hB : (((((l.dropWhile (· ≠ '.')).tail).takeWhile (· ≠ '.')).take 8)).count '.' = 0 :=
      count_eq_zero_of_all_ne fun c hc => by
        simpa using List.mem_takeWhile_imp ((List.take_sublist _ _).mem hc)
    rw [hA, hB]
    simp
  · exact h

theorem count_minus_collapseMinus (l : List Char) :
    (collapseMinus l).count '-' ≤ 1 := by
  unfold collapseMinus
  split
  · have hf : (l.filter (· ≠ '-')).count '-' = 0 :=
      count_eq_zero_of_all_ne fun c hc => by simpa using List.of_mem_filter hc
    split
    · rw [List.count_cons, hf]; simp
    · rw [hf]; omega
  · omega

theorem tail_count_strip {l : List Char} (h : l.count '-' ≤ 1) :
    (stripNonLeadingMinus l).tail.count '-' = 0 := by
  unfold stripNonLeadingMinus
  split
  case isTrue hc =>
    have hf : (l.filter (· ≠ '-')).count '-' = 0 :=
      count_eq_zero_of_all_ne fun c h1 => by simpa using List.of_mem_filter h1
    have := (List.tail_sublist (l.filter (· ≠ '-'))).count_le '-'
    omega
  case isFalse hc =>
    push_neg at hc
    cases l with
    | nil => rfl
    | cons c t =>
      by_cases hcm : c = '-'
      · subst hcm
        rw [List.count_cons_self] at h
        simp only [List.tail_cons]
        omega
      · by_cases hmem : '-' ∈ (c :: t)
        · have := hc hmem
          simp at this
          exact absurd this hcm
        · have hnt : '-' ∉ t := fun ht => hmem (List.mem_cons_of_mem c ht)
          simpa [List.count_eq_zero] using hnt

theorem tail_count_truncate {l : List Char} (h : l.tail.count '-' = 0) :
    (truncateDecimals l).tail.count '-' = 0 := by
  cases l with
  | nil => rfl
  | cons c t =>
    unfold truncateDecimals
    split
    case isTrue hdot =>
      simp only [List.tail_cons] at h
      by_cases hc : c = '.'
      · subst hc
        rw [takeWhile_ne_cons_self, dropWhile_ne_cons_self, List.nil_append,
          List.tail_cons, List.tail_cons]
        have hsub : ((t.takeWhile (· ≠ '.')).take 8).Sublist t :=
          (List.take_sublist _ _).trans (List.takeWhile_sublist _)
        have := hsub.count_le '-'
        omega
      · rw [takeWhile_ne_cons_of_ne hc, dropWhile_ne_cons_of_ne hc,
          List.cons_append, List.tail_cons, List.count_append, List.count_cons]
        have h1 : (t.takeWhile (· ≠ '.')).count '-' = 0 := by
          have := (List.takeWhile_sublist (l := t) (p := (· ≠ '.'))).count_le '-'
          omega
        have h2 : ((((t.dropWhile (· ≠ '.')).tail).takeWhile (· ≠ '.')).take 8).count '-' = 0 := by
          have hsub : ((((t.dropWhile (· ≠ '.')).tail).takeWhile (· ≠ '.')).take 8).Sublist t :=
            (List.take_sublist _ _).trans ((List.takeWhile_sublist _).trans
              ((List.tail_sublist _).trans (List.dropWhile_sublist _)))
          have := hsub.count_le '-'
          omega
        rw [h1, h2]
        simp
    case isFalse hdot => exact h

theorem tail_count_take {l : List Char} (n : Nat) (h : l.tail.count '-' = 0) :
    (l.take n).tail.count '-' = 0 := by
  rw [tail_take_eq]
  have := (List.take_sublist (n - 1) l.tail).count_le '-'
  omega

theorem decimals_truncate (l : List Char) :
    '.' ∈ truncateDecimals l → (decimalPart (truncateDecimals l)).length ≤ 8 := by
  intro hmem
  unfold truncateDecimals at hmem ⊢
  by_cases hdot : '.' ∈ l
  · rw [if_pos hdot] at hmem ⊢
    unfold decimalPart
    rw [dropWhile_append_of_all fun c hc => by
      simpa using List.mem_takeWhile_imp hc]
    rw [dropWhile_ne_cons_self, List.tail_cons]
    exact take_length_le_bound _ _
  · rw [if_neg hdot] at hmem
    exact absurd hmem hdot

theorem decimalPart_length_take (l : List Char) (n : Nat) :
    (decimalPart (l.take n)).length ≤ (decimalPart l).length := by
  induction l generalizing n with
  | nil => simp [decimalPart]
  | cons c t ih =>
    cases n with
    | zero => simp [decimalPart]
    | succ m =>
      rw [List.take_succ_cons]
      unfold decimalPart
      by_cases hc : c = '.'
      · subst hc
        rw [dropWhile_ne_cons_self, dropWhile_ne_cons_self, List.tail_cons,
          List.tail_cons]
        exact (List.take_sublist m t).length_le
      · rw [dropWhile_ne_cons_of_ne hc, dropWhile_ne_cons_of_ne hc]
        exact ih m

theorem sanitize_shape (l : List Char) : SanitizedShape (sanitizeListChar l) := by
  set f := (l.filter isNumericChar) with hf
  refine ⟨sanitize_alphabet, ?_, ?_, ?_, ?_⟩
  · have h1 := count_dot_collapseDots f
    have h2 := count_dot_collapseMinus (collapseDots f)
    have h3 := count_dot_strip (collapseMinus (collapseDots f))
    have h4 := count_dot_truncate (l := stripNonLeadingMinus (collapseMinus (collapseDots f)))
      (by omega)
    have h5 := (List.take_sublist 20
      (truncateDecimals (stripNonLeadingMinus (collapseMinus (collapseDots f))))).count_le '.'
    unfold sanitizeListChar
    rw [← hf]
    omega
  · have h1 := count_minus_collapseMinus (collapseDots f)
    have h2 := tail_count_strip h1
    have h3 := tail_count_truncate h2
    exact tail_count_take 20 h3
  · intro hmem
    unfold sanitizeListChar at hmem ⊢
    have hmem' : '.' ∈ truncateDecimals (stripNonLeadingMinus (collapseMinus (collapseDots f))) :=
      (List.take_sublist _ _).mem hmem
    have := decimals_truncate _ hmem'
    calc (decimalPart ((truncateDecimals (stripNonLeadingMinus (collapseMinus
            (collapseDots f)))).take 20)).length
        ≤ (decimalPart (truncateDecimals (stripNonLeadingMinus (collapseMinus
            (collapseDots f))))).length := decimalPart_length_take _ _
      _ ≤ 8 := this
  · exact take_length_le_bound _ _

theorem collapseDots_eq_self {l : List Char} (h : l.count '.' ≤ 1) :
    collapseDots l = l := by
  unfold collapseDots
  rw [if_neg (by omega)]

theorem collapseMinus_eq_self {l : List Char} (h : l.count '-' ≤ 1) :
    collapseMinus l = l := by
  unfold collapseMinus
  rw [if_neg (by omega)]

theorem count_minus_le_one_of_tail_free {l : List Char} (h : l.tail.count '-' = 0) :
    l.count '-' ≤ 1 := by
  cases l with
  | nil => simp
  | cons c t =>
    simp only [List.tail_cons] at h
    rw [List.count_cons]
    split <;> omega

theorem strip_eq_self {l : List Char} (h : l.tail.count '-' = 0) :
    stripNonLeadingMinus l = l := by
  unfold stripNonLeadingMinus
  rw [if_neg]
  rintro ⟨hmem, hhead⟩
  cases l with
  | nil => cases hmem
  | cons c t =>
    simp only [List.tail_cons] at h
    rcases List.mem_cons.mp hmem with h1 | h1
    · exact hhead (by rw [← h1]; rfl)
    · rw [List.count_eq_zero] at h
      exact h h1

theorem truncate_eq_self {l : List Char} (h1 : l.count '.' ≤ 1)
    (h2 : '.' ∈ l → (decimalPart l).length ≤ 8) : truncateDecimals l = l := by
  unfold truncateDecimals
  by_cases hdot : '.' ∈ l
  · rw [if_pos hdot]
    obtain ⟨B, hB⟩ := dropWhile_dot_decomp hdot
    have hA0 : (l.takeWhile (· ≠ '.')).count '.' = 0 :=
      count_eq_zero_of_all_ne fun c hc => by
        simpa using List.mem_takeWhile_imp hc
    have hsplit := List.takeWhile_append_dropWhile (p := (· ≠ '.')) (l := l)
    have hcount : l.count '.' = (l.takeWhile (· ≠ '.')).count '.' +
        (l.dropWhile (· ≠ '.')).count '.' := by
      conv_lhs => rw [← hsplit]
      exact List.count_append _ _ _
    rw [hB, List.count_cons_self] at hcount
    have hB0 : B.count '.' = 0 := by omega
    have hBall : ∀ c ∈ B, (c ≠ '.' : Bool) = true := by
      intro c hc
      rw [List.count_eq_zero] at hB0
      simp only [decide_eq_true_eq]
      exact fun hcc => hB0 (hcc ▸ hc)
    have hBtake : B.takeWhile (· ≠ '.') = B := takeWhile_eq_self_of_all hBall
    have hdp : decimalPart l = B := by
      unfold decimalPart
      rw [hB]
      rfl
    have hlen : B.length ≤ 8 := by rw [← hdp]; exact h2 hdot
    rw [hB]
    simp only [List.tail_cons]
    rw [hBtake, List.take_of_length_le hlen]
    conv_rhs => rw [← hsplit, hB]
  · rw [if_neg hdot]

theorem shape_sanitize_eq {l : List Char} (h : SanitizedShape l) :
    sanitizeListChar l = l := by
  unfold sanitizeListChar
  rw [List.filter_eq_self.mpr h.alphabet,
    collapseDots_eq_self h.oneDot,
    collapseMinus_eq_self (count_minus_le_one_of_tail_free h.tailMinusFree),
    strip_eq_self h.tailMinusFree,
    truncate_eq_self h.oneDot h.decimals,
    List.take_of_length_le h.short]

/-! ## JavaScript numbers

JS `number` values are embedded exactly: a rational for finite doubles
(the shallow embedding idealizes binary floating point as exact rational
arithmetic), plus the three special values `NaN`, `Infinity`, `-Infinity`
that the code can produce (e.g. `Math.min()` with no arguments). -/

inductive JsNum where
  | nan
  | inf
  | ninf
  | num (q : ℚ)
deriving DecidableEq

namespace JsNum

def add : JsNum → JsNum → JsNum
  | nan, _ => nan
  | _, nan => nan
  | inf, ninf => nan
  | ninf, inf => nan
  | inf, _ => inf
  | _, inf => inf
  | ninf, _ => ninf
  | _, ninf => ninf
  | num a, num b => num (a + b)

def sub : JsNum → JsNum → JsNum
  | nan, _ => nan
  | _, nan => nan
  | inf, inf => nan
  | ninf, ninf => nan
  | inf, _ => inf
  | ninf, _ => ninf
  | _, inf => ninf
  | _, ninf => inf
  | num a, num b => num (a - b)

def mul : JsNum → JsNum → JsNum
  | nan, _ => nan
  | _, nan => nan
  | inf, inf => inf
  | inf, ninf => ninf
  | ninf, inf => ninf
  | ninf, ninf => inf
  | inf, num b => if b = 0 then nan else if 0 < b then inf else ninf
  | num a, inf => if a = 0 then nan else if 0 < a then inf else ninf
  | ninf, num b => if b = 0 then nan else if 0 < b then ninf else inf
  | num a, ninf => if a = 0 then nan else if 0 < a then ninf else inf
  | num a, num b => num (a * b)

def div : JsNum → JsNum → JsNum
  | nan, _ => nan
  | _, nan => nan
  | inf, inf => nan
  | inf, ninf => nan
  | ninf, inf => nan
  | ninf, ninf => nan
  | inf, num b => if 0 ≤ b then inf else ninf
  | ninf, num b => if 0 ≤ b then ninf else inf
  | num _, inf => num 0
  | num _, ninf => num 0
  | num a, num b =>
    if b = 0 then (if a = 0 then nan else if 0 < a then inf else ninf)
    else num (a / b)

/-- `<` on JS numbers; any comparison involving NaN is false. -/
def lt : JsNum → JsNum → Bool
  | nan, _ => false
  | _, nan => false
  | inf, _ => false
  | _, ninf => false
  | ninf, _ => true
  | _, inf => true
  | num a, num b => decide (a < b)

/-- `≤` on JS numbers; any comparison involving NaN is false. -/
def le : JsNum → JsNum → Bool
  | nan, _ => false
  | _, nan => false
  | ninf, _ => true
  | _, inf => true
  | inf, _ => false
  | _, ninf => false
  | num a, num b => decide (a ≤ b)

def gt (a b : JsNum) : Bool := lt b a
def ge (a b : JsNum) : Bool := le b a

/-- `Math.max` of two values (NaN-propagating). -/
def max2 : JsNum → JsNum → JsNum
  | nan, _ => nan
  | _, nan => nan
  | a, b => if lt a b then b else a

/-- `Math.min` of two values (NaN-propagating). -/
def min2 : JsNum → JsNum → JsNum
  | nan, _ => nan
  | _, nan => nan
  | a, b => if lt b a then b else a

/-- JS truthiness of a number (`0` and `NaN` are falsy). -/
def truthy : JsNum → Bool
  | nan => false
  | num q => decide (q ≠ 0)
  | _ => true

/-- `Math.round` (round half toward +∞). -/
def round : JsNum → JsNum
  | num q => num ((⌊q + 1/2⌋ : ℤ) : ℚ)
  | x => x

/-- `Number.isInteger`. -/
def isInteger : JsNum → Bool
  | num q => decide (q.den = 1)
  | _ => false

/-- `Math.abs`. -/
def abs : JsNum → JsNum
  | num q => num |q|
  | ninf => inf
  | x => x

instance : OfNat JsNum n := ⟨num n⟩

end JsNum

/-- Decimal rendering of a natural number (display only). -/
def padZeros (s : String) (d : Nat) : String :=
  ⟨List.replicate (d - s.length) '0'⟩ ++ s

/-- `x.toFixed(d)`: fixed-point rendering with round-half-away-from-zero on
the exact rational magnitude (idealization of the double-precision
rounding; output strings are display-only in every theorem below). -/
def jsToFixed (x : JsNum) (d : Nat) : String :=
  match x with
  | .nan => "NaN"
  | .inf => "Infinity"
  | .ninf => "-Infinity"
  | .num q =>
    let sign := if q < 0 then "-" else ""
    let scaled : Nat := (⌊|q| * (10 ^ d : ℚ) + 1/2⌋).toNat
    if d = 0 then sign ++ toString (scaled)
    else sign ++ toString (scaled / 10 ^ d) ++ "." ++
      padZeros (toString (scaled % 10 ^ d)) d

/-- `x.toString()` for numbers (display-only idealization: exact integers
render as digit strings, other rationals via 20 fixed digits). -/
def jsNumToString (x : JsNum) : String :=
  match x with
  | .nan => "NaN"
  | .inf => "Infinity"
  | .ninf => "-Infinity"
  | .num q => if q.den = 1 then toString q.num else jsToFixed x 20

/-- `x.toLocaleString()` (display-only; locale separators not modelled). -/
def jsToLocaleString (x : JsNum) : String := jsNumToString x

/-- `parseFloat` on a string: optional sign, integer digits, optional dot
and fraction digits, parsed from the longest valid prefix; `NaN` when no
digit is found.  (The exponent / `Infinity` literal forms never arise for
the pipeline's inputs, which contain only digits, dots and minus signs
after sanitization.) -/
def digitsToNat (l : List Char) : Nat :=
  l.foldl (fun acc c => acc * 10 + (c.toNat - 48)) 0

def parseFloatList (l : List Char) : JsNum :=
  let neg : Bool := l.head? = some '-'
  let rest := if l.head? = some '-' ∨ l.head? = some '+' then l.tail else l
  let intDigits := rest.takeWhile Char.isDigit
  let afterInt := rest.drop intDigits.length
  let fracDigits :=
    if afterInt.head? = some '.' then afterInt.tail.takeWhile Char.isDigit else []
  if intDigits = [] ∧ fracDigits = [] then JsNum.nan
  else
    let mag : ℚ := (digitsToNat intDigits : ℚ) +
      (digitsToNat fracDigits : ℚ) / ((10 : ℚ) ^ fracDigits.length)
    JsNum.num (if neg then -mag else mag)

def parseFloat (s : String) : JsNum := parseFloatList s.data

example : parseFloat "1.0850" = JsNum.num (1085 / 1000) := by
  with_unfolding_all decide
example : parseFloat "" = JsNum.nan := by with_unfolding_all decide
example : parseFloat "-.5" = JsNum.num (-(1/2)) := by with_unfolding_all decide
example : parseFloat "1.2.3" = JsNum.num (12/10) := by with_unfolding_all decide

/-! ## Data model

`CandleData` (from `@/types/session`, as constrained by `CandleDataSchema`
in `CandleValidationService` and by its uses in `CandleIndexService` /
`CandleInputCore.formDataToCandleData`). -/

inductive PredictionDirection where
  | UP
  | DOWN
  | NEUTRAL
deriving DecidableEq

structure CandleData where
  id : Option String := none
  session_id : String
  candle_index : Nat
  open_ : JsNum -- source field name is `open`, a reserved word in Lean
  high : JsNum
  low : JsNum
  close : JsNum
  volume : JsNum
  candle_datetime : String
  spread : Option JsNum := none
  created_at : Option String := none
  prediction_direction : Option PredictionDirection := none
  prediction_probability : Option JsNum := none
  prediction_confidence : Option JsNum := none
deriving DecidableEq

/-! ## CandleInputCore history state (undo/redo stacks)

Source: `src/services/candle/CandleInputCore.ts`.  The stacks are JS
arrays used with `push` (append at the end) and `pop` (remove the last
element); index 0 is the bottom of the stack. -/

structure CoreState where
  undoStack : List CandleData
  redoStack : List CandleData
deriving DecidableEq

structure UndoRedoResult where
  success : Bool
  candle : Option CandleData := none
  error : Option String := none
deriving DecidableEq

/-- Step 7 of `CandleInputCore.save` (lines 186–188): push the saved candle
onto the undo stack and clear the redo stack. -/
def commitHistory (s : CoreState) (c : CandleData) : CoreState :=
  { undoStack := s.undoStack ++ [c], redoStack := [] }

/-- `CandleInputCore.undo` (lines 219–248). -/
def undo (s : CoreState) : UndoRedoResult × CoreState :=
  match s.undoStack.getLast? with
  | none => ({ success := false, error := some "Нет операций для отмены" }, s)
  | some c =>
    ({ success := true, candle := some c },
     { undoStack := s.undoStack.dropLast, redoStack := s.redoStack ++ [c] })

/-- `CandleInputCore.redo` (lines 253–282). -/
def redo (s : CoreState) : UndoRedoResult × CoreState :=
  match s.redoStack.getLast? with
  | none => ({ success := false, error := some "Нет операций для повтора" }, s)
  | some c =>
    ({ success := true, candle := some c },
     { undoStack := s.undoStack ++ [c], redoStack := s.redoStack.dropLast })

def canUndo (s : CoreState) : Bool := decide (0 < s.undoStack.length)

def canRedo (s : CoreState) : Bool := decide (0 < s.redoStack.length)

def clearHistory (_ : CoreState) : CoreState := ⟨[], []⟩

/-- One commit/undo/redo operation on an editing session's history. -/
inductive HistoryOp where
  | commit (c : CandleData)
  | undoOp
  | redoOp

/-- State effect of one history operation. -/
def applyHistoryOp (s : CoreState) : HistoryOp → CoreState
  | .commit c => commitHistory s c
  | .undoOp => (undo s).2
  | .redoOp => (redo s).2

/-- A commit appends to the undo stack and never removes anything: folding
any list of commits appends it wholesale. -/
theorem foldl_commitHistory_undoStack (s : CoreState) (cs : List CandleData) :
    (cs.foldl commitHistory s).undoStack = s.undoStack ++ cs := by
  induction cs generalizing s with
  | nil => simp
  | cons c t ih =>
    rw [List.foldl_cons, ih]
    simp [commitHistory]

theorem undo_of_getLast {s : CoreState} {c : CandleData}
    (hc : s.undoStack.getLast? = some c) :
    undo s = ({ success := true, candle := some c },
      ⟨s.undoStack.dropLast, s.redoStack ++ [c]⟩) := by
  unfold undo
  rw [hc]

theorem redo_of_getLast {s : CoreState} {c : CandleData}
    (hc : s.redoStack.getLast? = some c) :
    redo s = ({ success := true, candle := some c },
      ⟨s.undoStack ++ [c], s.redoStack.dropLast⟩) := by
  unfold redo
  rw [hc]

/-- A concrete candle used for witnesses and counterexamples. -/
def testCandle (i : Nat) : CandleData where
  id := some (toString i)
  session_id := "s"
  candle_index := i
  open_ := JsNum.num 1
  high := JsNum.num 2
  low := JsNum.num 1
  close := JsNum.num 2
  volume := JsNum.num 1000
  candle_datetime := "2024-01-01T00:00:00Z"

/-! ## JS `Map` embedding (association lists, insertion order preserved) -/

def jsMapGet {α β : Type} [DecidableEq α] (m : List (α × β)) (k : α) : Option β :=
  match m with
  | [] => none
  | (k', v) :: t => if k' = k then some v else jsMapGet t k

def jsMapSet {α β : Type} [DecidableEq α] (m : List (α × β)) (k : α) (v : β) :
    List (α × β) :=
  match m with
  | [] => [(k, v)]
  | (k', v') :: t => if k' = k then (k, v) :: t else (k', v') :: jsMapSet t k v

def jsMapDelete {α β : Type} [DecidableEq α] (m : List (α × β)) (k : α) :
    List (α × β) :=
  match m with
  | [] => []
  | (k', v') :: t => if k' = k then t else (k', v') :: jsMapDelete t k

theorem jsMapGet_set_self {α β : Type} [DecidableEq α] (m : List (α × β))
    (k : α) (v : β) :
    jsMapGet (jsMapSet m k v) k = some v := by
  induction m with
  | nil => simp [jsMapSet, jsMapGet]
  | cons p t ih =>
    obtain ⟨k', v'⟩ := p
    by_cases h : k' = k
    · simp [jsMapSet, jsMapGet, h]
    · simp [jsMapSet, jsMapGet, h, ih]

/-! ## CandleSecurityService: rate limiting

Source: `src/services/candle/CandleSecurityService.ts`, lines 22–25 and
138–166.  The process-wide `rateLimitMap` is threaded explicitly;
`Date.now()` is an explicit `now` argument (milliseconds). -/

structure SecurityCheckResult where
  passed : Bool
  reason : Option String := none
  threat : Option String := none
deriving DecidableEq

structure RateLimitWindow where
  count : Nat
  resetTime : Nat
deriving DecidableEq

def RATE_LIMIT_WINDOW : Nat := 60000

def MAX_REQUESTS_PER_WINDOW : Nat := 100

abbrev RateLimitMap := List (String × RateLimitWindow)

/-- `CandleSecurityService.checkRateLimit` (lines 138–166). -/
def checkRateLimit (m : RateLimitMap) (identifier : String) (now : Nat) :
    SecurityCheckResult × RateLimitMap :=
  match jsMapGet m identifier with
  | none =>
    ({ passed := true }, jsMapSet m identifier ⟨1, now + RATE_LIMIT_WINDOW⟩)
  | some w =>
    if now > w.resetTime then
      ({ passed := true }, jsMapSet m identifier ⟨1, now + RATE_LIMIT_WINDOW⟩)
    else if w.count ≥ MAX_REQUESTS_PER_WINDOW then
      ({ passed := false, reason := some "Rate limit exceeded",
         threat := some "RATE_LIMIT" }, m)
    else
      ({ passed := true }, jsMapSet m identifier ⟨w.count + 1, w.resetTime⟩)

/-- `CandleSecurityService.cleanupRateLimitMap` (lines 268–275). -/
def cleanupRateLimitMap (m : RateLimitMap) (now : Nat) : RateLimitMap :=
  m.filter fun e => ¬ now > e.2.resetTime

/-- Iterate `checkRateLimit` over a list of call times, collecting results. -/
def runRateLimit : RateLimitMap → String → List Nat → List SecurityCheckResult × RateLimitMap
  | m, _, [] => ([], m)
  | m, id, t :: rest =>
    let p := checkRateLimit m id t
    let q := runRateLimit p.2 id rest
    (p.1 :: q.1, q.2)

theorem checkRateLimit_pass_step {m : RateLimitMap} {id : String} {t r k : Nat}
    (hk : jsMapGet m id = some ⟨k, r⟩) (hle : t ≤ r)
    (hcount : k < MAX_REQUESTS_PER_WINDOW) :
    checkRateLimit m id t = ({ passed := true }, jsMapSet m id ⟨k + 1, r⟩) := by
  unfold checkRateLimit
  rw [hk]
  simp only
  rw [if_neg (by omega), if_neg (by omega)]

theorem runRateLimit_within {id : String} {r : Nat} (ts : List Nat) :
    ∀ (m : RateLimitMap) (k : Nat),
      jsMapGet m id = some ⟨k, r⟩ →
      (∀ t ∈ ts, t ≤ r) →
      k + ts.length ≤ MAX_REQUESTS_PER_WINDOW →
      (∀ res ∈ (runRateLimit m id ts).1, res.passed = true) ∧
      jsMapGet (runRateLimit m id ts).2 id = some ⟨k + ts.length, r⟩ := by
  induction ts with
  | nil =>
    intro m k hk _ _
    exact ⟨by simp [runRateLimit], by simpa [runRateLimit] using hk⟩
  | cons t rest ih =>
    intro m k hk hts hbound
    have hle : t ≤ r := hts t (List.mem_cons_self t rest)
    have hcount : k < MAX_REQUESTS_PER_WINDOW := by
      simp only [List.length_cons] at hbound
      omega
    have hstep := checkRateLimit_pass_step hk hle hcount
    have hget' := jsMapGet_set_self m id (⟨k + 1, r⟩ : RateLimitWindow)
    obtain ⟨hall, hget⟩ := ih (jsMapSet m id ⟨k + 1, r⟩) (k + 1) hget'
      (fun x hx => hts x (List.mem_cons_of_mem t hx)) (by simp at hbound ⊢; omega)
    constructor
    · intro res hres
      simp only [runRateLimit, hstep] at hres
      rcases List.mem_cons.mp hres with h1 | h1
      · rw [h1]
      · exact hall res h1
    · simp only [runRateLimit, hstep]
      have harith : k + (t :: rest).length = (k + 1) + rest.length := by
        simp
        omega
      rw [harith]
      exact hget

instance : Add JsNum := ⟨JsNum.add⟩

instance : Sub JsNum := ⟨JsNum.sub⟩

instance : Mul JsNum := ⟨JsNum.mul⟩

instance : Div JsNum := ⟨JsNum.div⟩

/-! ## Form data and sanitization of the five fields -/

/-- `CandleFormData` / `SanitizedCandleFormData`: the five raw text fields
(`open` is a reserved word in Lean, hence `open_`). -/
structure CandleFormData where
  open_ : String
  high : String
  low : String
  close : String
  volume : String
deriving DecidableEq

/-- `CandleSecurityService.sanitizeFormData` (lines 77–92) applied to an
already well-typed form (the non-object guard cannot fire). -/
def sanitizeFormData (d : CandleFormData) : CandleFormData where
  open_ := sanitizeNumericInput d.open_
  high := sanitizeNumericInput d.high
  low := sanitizeNumericInput d.low
  close := sanitizeNumericInput d.close
  volume := sanitizeNumericInput d.volume

/-! ## Threat screening (`checkForSuspiciousPatterns`, lines 97–133)

`JSON.stringify(data)` serializes the sanitized form with its keys in
creation order (open, high, low, close, volume); the result is lowered
with `toLowerCase` and tested against the fixed list of case-insensitive
signatures, stopping at the first match. -/

/-- JSON string escaping per character (quotes and backslashes; control
characters never occur in the pipeline's inputs and are not modelled). -/
def jsonEscapeChar (c : Char) : List Char :=
  if c = '"' then ['\\', '"']
  else if c = '\\' then ['\\', '\\']
  else [c]

def jsonEscapeString (l : List Char) : List Char := l.flatMap jsonEscapeChar

/-- `JSON.stringify` of a `SanitizedCandleFormData` object. -/
def jsonStringifyForm (d : CandleFormData) : List Char :=
  "\x7b\"open\":\"".data ++ jsonEscapeString d.open_.data ++
  "\",\"high\":\"".data ++ jsonEscapeString d.high.data ++
  "\",\"low\":\"".data ++ jsonEscapeString d.low.data ++
  "\",\"close\":\"".data ++ jsonEscapeString d.close.data ++
  "\",\"volume\":\"".data ++ jsonEscapeString d.volume.data ++
  "\"\x7d".data

/-- `JSON.stringify(data).toLowerCase()`. -/
def suspiciousDataString (d : CandleFormData) : List Char :=
  (jsonStringifyForm d).map Char.toLower

/-- Does `s` start with `pat`? -/
def startsWithPat : List Char → List Char → Bool
  | [], _ => true
  | _ :: _, [] => false
  | p :: ps, c :: cs => p == c && startsWithPat ps cs

/-- Does `pat` occur as a contiguous substring of `s`? -/
def containsSub (pat : List Char) : List Char → Bool
  | [] => pat.isEmpty
  | c :: rest => startsWithPat pat (c :: rest) || containsSub pat rest

/-- The remainder of `s` after the first occurrence of `pat`, if any. -/
def afterFirst (pat : List Char) : List Char → Option (List Char)
  | [] => if pat.isEmpty then some [] else none
  | c :: rest =>
    if startsWithPat pat (c :: rest) then some ((c :: rest).drop pat.length)
    else afterFirst pat rest

/-- `/P.*Q/` on a one-line string: `P` occurs, and `Q` occurs after it. -/
def pairPattern (p q : List Char) (s : List Char) : Bool :=
  match afterFirst p s with
  | some rest => containsSub q rest
  | none => false

/-- `\w` (ASCII word character). -/
def isWordChar (c : Char) : Bool := c.isAlpha || c.isDigit || c == '_'

/-- `/on\w+=/` anchored at the start of `s`: `o`, `n`, at least one word
character, then `=`.  Since `=` is not a word character, the word run can
be taken maximal. -/
def onHandlerAt (s : List Char) : Bool :=
  match s with
  | a :: b :: rest =>
    a == 'o' && b == 'n' &&
      (let w := rest.takeWhile isWordChar
       !w.isEmpty && (rest.drop w.length).head? == some '=')
  | _ => false

/-- `/on\w+=/` anywhere in `s`. -/
def containsOnHandler : List Char → Bool
  | [] => false
  | c :: rest => onHandlerAt (c :: rest) || containsOnHandler rest

/-- `CandleSecurityService.checkForSuspiciousPatterns` (lines 97–133).
Each entry pairs the regex source (the `threat` reported on a match) with
its matcher over the lowered serialized form; matching stops at the first
hit.  Patterns with uppercase sources match case-insensitively, hence via
their lowercase text against the lowered string. -/
def checkForSuspiciousPatterns (d : CandleFormData) : SecurityCheckResult :=
  let ds := suspiciousDataString d
  let tests : List (String × Bool) := [
    ("<script", containsSub "<script".data ds),
    ("javascript:", containsSub "javascript:".data ds),
    ("on\\w+=", containsOnHandler ds),
    ("data:text\\/html", containsSub "data:text/html".data ds),
    ("vbscript:", containsSub "vbscript:".data ds),
    ("<iframe", containsSub "<iframe".data ds),
    ("<object", containsSub "<object".data ds),
    ("<embed", containsSub "<embed".data ds),
    ("SELECT.*FROM", pairPattern "select".data "from".data ds),
    ("UNION.*SELECT", pairPattern "union".data "select".data ds),
    ("DROP.*TABLE", pairPattern "drop".data "table".data ds),
    ("INSERT.*INTO", pairPattern "insert".data "into".data ds),
    ("DELETE.*FROM", pairPattern "delete".data "from".data ds),
    ("UPDATE.*SET", pairPattern "update".data "set".data ds)]
  match tests.find? (fun t => t.2) with
  | some t =>
    { passed := false, reason := some "Suspicious pattern detected",
      threat := some t.1 }
  | none => { passed := true }

/-! ## Numeric range screening (`validateNumericRanges`, lines 171–212) -/

def jsIsFinite : JsNum → Bool
  | .num _ => true
  | _ => false

def MAX_SAFE_INTEGER : ℚ := 9007199254740991

/-- One field of `validateNumericRanges`: the first failing check wins. -/
def numericRangeCheck (field : String) (v : String) : Option SecurityCheckResult :=
  let value := parseFloat v
  if !jsIsFinite value then
    some { passed := false, reason := some ("Invalid " ++ field ++ " value: not finite"),
           threat := some "INVALID_NUMBER" }
  else if value.lt (JsNum.num 0) then
    some { passed := false, reason := some ("Invalid " ++ field ++ " value: negative"),
           threat := some "NEGATIVE_VALUE" }
  else if value.gt (JsNum.num MAX_SAFE_INTEGER) then
    some { passed := false, reason := some ("Invalid " ++ field ++ " value: overflow"),
           threat := some "NUMBER_OVERFLOW" }
  else if value == JsNum.nan then
    some { passed := false, reason := some ("Invalid " ++ field ++ " value: NaN"),
           threat := some "NAN_VALUE" }
  else none

def validateNumericRanges (d : CandleFormData) : SecurityCheckResult :=
  match [("open", d.open_), ("high", d.high), ("low", d.low),
         ("close", d.close), ("volume", d.volume)].findSome?
      (fun p => numericRangeCheck p.1 p.2) with
  | some r => r
  | none => { passed := true }

/-! ## performSecurityCheck (lines 217–263) -/

structure SecurityCheckOutcome where
  passed : Bool
  sanitizedData : Option CandleFormData := none
  error : Option String := none
deriving DecidableEq

/-- `CandleSecurityService.performSecurityCheck`: rate limit, then sanitize,
then signature screening, then numeric ranges, short-circuiting with a
user-facing error.  The surrounding try/catch cannot fire for well-typed
input (no step throws). -/
def performSecurityCheck (m : RateLimitMap) (d : CandleFormData)
    (identifier : String) (now : Nat) : SecurityCheckOutcome × RateLimitMap :=
  let rl := checkRateLimit m identifier now
  if !rl.1.passed then
    ({ passed := false,
       error := some "Превышен лимит запросов. Пожалуйста, подождите." }, rl.2)
  else
    let sanitizedData := sanitizeFormData d
    let suspiciousCheck := checkForSuspiciousPatterns sanitizedData
    if !suspiciousCheck.passed then
      ({ passed := false,
         error := some "Обнаружены подозрительные данные. Операция отклонена." }, rl.2)
    else
      let rangeCheck := validateNumericRanges sanitizedData
      if !rangeCheck.passed then
        ({ passed := false,
           error := some ("Некорректные числовые значения: " ++
             rangeCheck.reason.getD "undefined") }, rl.2)
      else
        ({ passed := true, sanitizedData := some sanitizedData }, rl.2)

/-- `CandleSecurityService.generateIdentifier` (lines 296–299):
`userId || sessionId || 'anonymous'` prefixed with `candle_input_`. -/
def generateIdentifier (sessionId : String) (userId : Option String) : String :=
  let baseId :=
    match userId with
    | some u => if u = "" then (if sessionId = "" then "anonymous" else sessionId) else u
    | none => if sessionId = "" then "anonymous" else sessionId
  "candle_input_" ++ baseId

/-! ## CandleValidationService

Source: `CandleValidationService.ts` (zod-based).  zod semantics embedded:
string `min` checks report code `too_small`; every `.refine` reports code
`custom`; chained refinements all run and accumulate issues unless an
earlier stage *aborted* (which for these schemas only an invalid type —
e.g. `NaN` where `z.number()` is expected — can cause); object-level
refinements run after the per-field issues, in chain order; `err.path`
joined with `.` gives the reported field. -/

structure ValidationError where
  field : String
  message : String
  code : String
deriving DecidableEq

structure ValidationWarning where
  field : String
  message : String
  severity : String
deriving DecidableEq

/-- `ValidationResult` (the optional parsed `data` payload of the source
interface is not modelled; no consumer in the verified claims reads it). -/
structure ValidationResult where
  isValid : Bool
  errors : List ValidationError
  warnings : List ValidationWarning
deriving DecidableEq

/-- Per-field issues of a price field of `CandleFormDataSchema`:
`min(1, req)`, then refinements not-NaN, positive, below 1,000,000. -/
def priceFieldIssues (field reqMsg numMsg posMsg bigMsg : String)
    (v : String) : List ValidationError :=
  (if v.length < 1 then [⟨field, reqMsg, "too_small"⟩] else []) ++
  (if parseFloat v = JsNum.nan then [⟨field, numMsg, "custom"⟩] else []) ++
  (if !(parseFloat v).gt (JsNum.num 0) then [⟨field, posMsg, "custom"⟩] else []) ++
  (if !(parseFloat v).lt (JsNum.num 1000000) then [⟨field, bigMsg, "custom"⟩] else [])

/-- Per-field issues of the `volume` field: `min(1)`, not-NaN, `> 0`,
`< 999,999,999`, integral. -/
def volumeFieldIssues (v : String) : List ValidationError :=
  (if v.length < 1 then [⟨"volume", "Объем обязателен", "too_small"⟩] else []) ++
  (if parseFloat v = JsNum.nan then
    [⟨"volume", "Объем должен быть числом", "custom"⟩] else []) ++
  (if !(parseFloat v).gt (JsNum.num 0) then
    [⟨"volume", "Объем должен быть больше нуля", "custom"⟩] else []) ++
  (if !(parseFloat v).lt (JsNum.num 999999999) then
    [⟨"volume", "Объем слишком большой", "custom"⟩] else []) ++
  (if !(parseFloat v).isInteger then
    [⟨"volume", "Объем должен быть целым числом", "custom"⟩] else [])

/-- The four cross-field refinements of `CandleFormDataSchema`, in chain
order; each failure is attached to its declared `path`. -/
def candleFormCrossIssues (d : CandleFormData) : List ValidationError :=
  let o := parseFloat d.open_
  let h := parseFloat d.high
  let l := parseFloat d.low
  let c := parseFloat d.close
  (if !h.ge (JsNum.max2 o c) then
    [⟨"high", "Максимальная цена должна быть >= max(Open, Close)", "custom"⟩]
   else []) ++
  (if !l.le (JsNum.min2 o c) then
    [⟨"low", "Минимальная цена должна быть <= min(Open, Close)", "custom"⟩]
   else []) ++
  (if !h.ge l then
    [⟨"high", "Максимальная цена должна быть >= минимальной", "custom"⟩]
   else []) ++
  (let avgPrice := (h + l) / JsNum.num 2
   let spreadPercent := ((h - l) / avgPrice) * JsNum.num 100
   if !spreadPercent.le (JsNum.num 10) then
    [⟨"high", "Спред свечи превышает 10% - проверьте корректность данных", "custom"⟩]
   else [])

/-- All issues of `CandleFormDataSchema.safeParse` on string input: field
issues in key order, then the cross-field refinements (string fields never
abort, so the refinements always run). -/
def candleFormDataSchemaIssues (d : CandleFormData) : List ValidationError :=
  priceFieldIssues "open" "Цена открытия обязательна"
    "Цена открытия должна быть числом" "Цена открытия должна быть положительной"
    "Цена открытия слишком большая" d.open_ ++
  priceFieldIssues "high" "Максимальная цена обязательна"
    "Максимальная цена должна быть числом" "Максимальная цена должна быть положительной"
    "Максимальная цена слишком большая" d.high ++
  priceFieldIssues "low" "Минимальная цена обязательна"
    "Минимальная цена должна быть числом" "Минимальная цена должна быть положительной"
    "Минимальная цена слишком большая" d.low ++
  priceFieldIssues "close" "Цена закрытия обязательна"
    "Цена закрытия должна быть числом" "Цена закрытия должна быть положительной"
    "Цена закрытия слишком большая" d.close ++
  volumeFieldIssues d.volume ++
  candleFormCrossIssues d

/-- `CandleValidationService.validateFormData` (lines 129–201): zod issues
become errors; on success the three warning rules run (tiny spread,
low volume, large spread, in that order). -/
def validateFormData (d : CandleFormData) : ValidationResult :=
  let errors := candleFormDataSchemaIssues d
  let warnings :=
    if errors.isEmpty then
      let high := parseFloat d.high
      let low := parseFloat d.low
      let volume := parseFloat d.volume
      let avgPrice := (high + low) / JsNum.num 2
      let spread := high - low
      let spreadPercent := (spread / avgPrice) * JsNum.num 100
      (if spreadPercent.lt (JsNum.num (1/100)) then
        [⟨"spread", "Очень маленький спред - возможно ошибка в данных", "medium"⟩]
       else []) ++
      (if volume.lt (JsNum.num 1000) then
        [⟨"volume", "Низкий объем торгов - проверьте корректность", "low"⟩]
       else []) ++
      (if spreadPercent.gt (JsNum.num 5) then
        [⟨"spread", "Большой спред (" ++ jsToFixed spreadPercent 2 ++ "%)", "high"⟩]
       else [])
    else []
  { isValid := errors.isEmpty, errors := errors, warnings := warnings }

/-! ### CandleDataSchema (`validateCandleData`) -/

def isHexDigit (c : Char) : Bool :=
  c.isDigit || ('a' ≤ c && c ≤ 'f') || ('A' ≤ c && c ≤ 'F')

/-- `z.string().uuid()` (zod v3: 8-4-4-4-12 hexadecimal groups). -/
def isUuid (s : String) : Bool :=
  let l := s.data
  l.length == 36 &&
    l.enum.all fun p =>
      if p.1 = 8 ∨ p.1 = 13 ∨ p.1 = 18 ∨ p.1 = 23 then p.2 == '-'
      else isHexDigit p.2

/-- `z.string().datetime()` (zod v3 default: UTC, optional fractional
seconds): `YYYY-MM-DDTHH:MM:SS(.d+)?Z` as a digit-pattern check. -/
def isDatetime (s : String) : Bool :=
  let l := s.data
  let d := fun (i : Nat) => (l.getD i ' ').isDigit
  let c := fun (i : Nat) (ch : Char) => l.getD i ' ' == ch
  let rest := l.drop 19
  decide (20 ≤ l.length) &&
  d 0 && d 1 && d 2 && d 3 && c 4 '-' && d 5 && d 6 && c 7 '-' && d 8 && d 9 &&
  c 10 'T' && d 11 && d 12 && c 13 ':' && d 14 && d 15 && c 16 ':' && d 17 && d 18 &&
  (rest == ['Z'] ||
   (rest.head? == some '.' && !rest.tail.dropLast.isEmpty &&
    rest.tail.dropLast.all Char.isDigit && rest.getLast? == some 'Z'))

/-- zod `z.number().positive().finite()` issues for one field; a `NaN`
value is an `invalid_type` (it aborts the key, and thereby the object's
refinements). -/
def zodPositiveFiniteIssues (path : String) (x : JsNum) :
    List ValidationError × Bool :=
  if x = JsNum.nan then
    ([⟨path, "Expected number, received nan", "invalid_type"⟩], true)
  else
    ((if !x.gt (JsNum.num 0) then
        [⟨path, "Number must be greater than 0", "too_small"⟩] else []) ++
     (if !jsIsFinite x then
        [⟨path, "Number must be finite", "not_finite"⟩] else []),
     false)

/-- zod `z.number().positive().int().finite()` issues (volume). -/
def zodVolumeIssues (x : JsNum) : List ValidationError × Bool :=
  if x = JsNum.nan then
    ([⟨"volume", "Expected number, received nan", "invalid_type"⟩], true)
  else
    ((if !x.gt (JsNum.num 0) then
        [⟨"volume", "Number must be greater than 0", "too_small"⟩] else []) ++
     (if !x.isInteger then
        [⟨"volume", "Expected integer, received float", "invalid_type"⟩] else []) ++
     (if !jsIsFinite x then
        [⟨"volume", "Number must be finite", "not_finite"⟩] else []),
     false)

/-- zod `z.number().nonnegative().optional()` issues (spread). -/
def zodSpreadIssues (x : Option JsNum) : List ValidationError × Bool :=
  match x with
  | none => ([], false)
  | some v =>
    if v = JsNum.nan then
      ([⟨"spread", "Expected number, received nan", "invalid_type"⟩], true)
    else
      ((if !v.ge (JsNum.num 0) then
          [⟨"spread", "Number must be greater than or equal to 0", "too_small"⟩]
        else []), false)

/-- zod `z.number().min(lo).max(hi).optional()` issues (predictions). -/
def zodRangeIssues (path : String) (lo hi : ℚ) (x : Option JsNum) :
    List ValidationError × Bool :=
  match x with
  | none => ([], false)
  | some v =>
    if v = JsNum.nan then
      ([⟨path, "Expected number, received nan", "invalid_type"⟩], true)
    else
      ((if !v.ge (JsNum.num lo) then
          [⟨path, "Too small", "too_small"⟩] else []) ++
       (if !v.le (JsNum.num hi) then
          [⟨path, "Too big", "too_big"⟩] else []), false)

/-- All issues of `CandleDataSchema.safeParse` plus whether some key
aborted (in which case the two OHLC refinements are skipped).
`candle_index` is a natural number in the embedding, so its
`int().nonnegative()` checks hold by construction. -/
def candleDataSchemaIssues (d : CandleData) : List ValidationError :=
  let sess : List ValidationError :=
    if isUuid d.session_id then [] else
      [⟨"session_id", "Некорректный ID сессии", "invalid_string"⟩]
  let o := zodPositiveFiniteIssues "open" d.open_
  let h := zodPositiveFiniteIssues "high" d.high
  let l := zodPositiveFiniteIssues "low" d.low
  let c := zodPositiveFiniteIssues "close" d.close
  let v := zodVolumeIssues d.volume
  let dt : List ValidationError :=
    if isDatetime d.candle_datetime then [] else
      [⟨"candle_datetime", "Некорректная дата и время свечи", "invalid_string"⟩]
  let sp := zodSpreadIssues d.spread
  let pp := zodRangeIssues "prediction_probability" 0 1 d.prediction_probability
  let pc := zodRangeIssues "prediction_confidence" 0 100 d.prediction_confidence
  let aborted := o.2 || h.2 || l.2 || c.2 || v.2 || sp.2 || pp.2 || pc.2
  let fieldIssues := sess ++ o.1 ++ h.1 ++ l.1 ++ c.1 ++ v.1 ++ dt ++ sp.1 ++
    pp.1 ++ pc.1
  let refines : List ValidationError :=
    (if !(d.high.ge (JsNum.max2 d.open_ d.close) && d.high.ge d.low) then
      [⟨"", "Нарушение правил OHLC: High должен быть максимальным", "custom"⟩]
     else []) ++
    (if !(d.low.le (JsNum.min2 d.open_ d.close) && d.low.le d.high) then
      [⟨"", "Нарушение правил OHLC: Low должен быть минимальным", "custom"⟩]
     else [])
  fieldIssues ++ (if aborted then [] else refines)

/-- `CandleValidationService.validateCandleData` (lines 206–240). -/
def validateCandleData (d : CandleData) : ValidationResult :=
  let errors := candleDataSchemaIssues d
  { isValid := errors.isEmpty, errors := errors, warnings := [] }

/-- `CandleValidationService.validateCandleSequence` (lines 299–333):
temporal warnings against the previous candle. -/
def validateCandleSequence (cur : CandleData) (prev : Option CandleData) :
    List ValidationWarning :=
  match prev with
  | none => []
  | some p =>
    let gap := (cur.open_ - p.close).abs
    let avgPrice := (p.close + cur.open_) / JsNum.num 2
    let gapPercent := (gap / avgPrice) * JsNum.num 100
    let priceChange := (cur.close - p.close).abs
    let changePercent := (priceChange / p.close) * JsNum.num 100
    (if gapPercent.gt (JsNum.num 1) then
      [⟨"open", "Большой гэп между свечами (" ++ jsToFixed gapPercent 2 ++ "%)",
        "medium"⟩]
     else []) ++
    (if changePercent.gt (JsNum.num 5) then
      [⟨"close", "Большое изменение цены (" ++ jsToFixed changePercent 2 ++ "%)",
        "high"⟩]
     else [])

/-! ## CandleInputCore.validate / save -/

structure TradingSession where
  id : String
  session_name : String := ""
deriving DecidableEq

/-- `CandleInputCore.validate` (lines 57–83): security check first (which
consumes one rate-limit token), then structural validation of the
sanitized data.  The rate-limit map is threaded explicitly. -/
def validate (m : RateLimitMap) (session : TradingSession)
    (d : CandleFormData) (now : Nat) : ValidationResult × RateLimitMap :=
  let sec := performSecurityCheck m d (generateIdentifier session.id none) now
  if !sec.1.passed then
    ({ isValid := false,
       errors := [⟨"security", sec.1.error.getD "Security check failed",
         "SECURITY_ERROR"⟩],
       warnings := [] }, sec.2)
  else
    -- `sanitizedData` is always set when the security check passed
    (validateFormData (sec.1.sanitizedData.getD d), sec.2)

/-- `CandleInputCore.formDataToCandleData` (lines 95–120); `createdAt`
stands for `new Date().toISOString()`. -/
def formDataToCandleData (session : TradingSession) (formData : CandleFormData)
    (candleIndex : Nat) (candleDateTime : String) (createdAt : String) :
    CandleData where
  session_id := session.id
  candle_index := candleIndex
  open_ := parseFloat formData.open_
  high := parseFloat formData.high
  low := parseFloat formData.low
  close := parseFloat formData.close
  volume := parseFloat formData.volume
  candle_datetime := candleDateTime
  spread := some (parseFloat formData.high - parseFloat formData.low)
  created_at := some createdAt

structure SaveCandleResult where
  success : Bool
  candle : Option CandleData := none
  errors : Option (List String) := none
deriving DecidableEq

/-- `CandleInputCore.save` (lines 125–214).  The externally supplied
persistence callback `onSave` is modelled by its outcome: `none` when no
callback is configured, `some (Except.ok ())` when the awaited promise
resolves, `some (Except.error e)` when it throws/rejects with message `e`
(the surrounding try/catch turns the exception into a failed result).
The `onError` notification callback is a side effect with no influence on
the returned data or state and is not modelled. -/
def save (st : CoreState) (m : RateLimitMap) (session : TradingSession)
    (formData : CandleFormData) (candleIndex : Nat) (candleDateTime : String)
    (previousCandle : Option CandleData) (now : Nat) (createdAt : String)
    (onSave : Option (Except String Unit)) :
    SaveCandleResult × CoreState × RateLimitMap :=
  -- Step 1: validate
  let v := validate m session formData now
  if !v.1.isValid then
    ({ success := false, errors := some (v.1.errors.map (·.message)) }, st, v.2)
  else
    -- Steps 2–3: sanitize and convert
    let sanitizedData := sanitizeFormData formData
    let candleData := formDataToCandleData session sanitizedData candleIndex
      candleDateTime createdAt
    -- Step 4: temporal validation (warnings are only logged)
    let _temporalWarnings := validateCandleSequence candleData previousCandle
    -- Step 5: final data validation
    let dataValidation := validateCandleData candleData
    if !dataValidation.isValid then
      ({ success := false,
         errors := some (dataValidation.errors.map (·.message)) }, st, v.2)
    else
      -- Step 6: persistence callback (awaited; a rejection is caught)
      match onSave with
      | some (Except.error e) => ({ success := false, errors := some [e] }, st, v.2)
      | _ =>
        -- Step 7: push to undo stack, clear redo stack
        ({ success := true, candle := some candleData },
         commitHistory st candleData, v.2)

/-! ### Why no sanitized form ever matches a signature (claim C1)

After sanitization every field consists of digits, dots and minus signs
only, so the serialized lowered form contains no `<`, letter outside the
field names, or `=`; none of the fourteen signatures can match. -/

theorem startsWithPat_mem : ∀ {pat s : List Char},
    startsWithPat pat s = true → ∀ c ∈ pat, c ∈ s := by
  intro pat
  induction pat with
  | nil => intro s _ c hc; cases hc
  | cons p ps ih =>
    intro s h c hc
    cases s with
    | nil => simp [startsWithPat] at h
    | cons a as =>
      simp only [startsWithPat, Bool.and_eq_true, beq_iff_eq] at h
      rcases List.mem_cons.mp hc with h1 | h1
      · rw [h1, h.1]; exact List.mem_cons_self _ _
      · exact List.mem_cons_of_mem a (ih h.2 c h1)

theorem containsSub_mem {pat : List Char} : ∀ {s : List Char},
    containsSub pat s = true → ∀ c ∈ pat, c ∈ s := by
  intro s
  induction s with
  | nil =>
    intro h c hc
    unfold containsSub at h
    rw [List.isEmpty_iff] at h
    subst h
    cases hc
  | cons a as ih =>
    intro h c hc
    unfold containsSub at h
    rcases Bool.or_eq_true_iff.mp h with h1 | h1
    · exact startsWithPat_mem h1 c hc
    · exact List.mem_cons_of_mem a (ih h1 c hc)

theorem containsSub_eq_false_of_missing {pat s : List Char} {c : Char}
    (hc : c ∈ pat) (hs : c ∉ s) : containsSub pat s = false := by
  cases h : containsSub pat s
  · rfl
  · exact absurd (containsSub_mem h c hc) hs

theorem afterFirst_sublist {pat : List Char} : ∀ {s rest : List Char},
    afterFirst pat s = some rest → rest.Sublist s := by
  intro s
  induction s with
  | nil =>
    intro rest h
    unfold afterFirst at h
    split at h
    · cases h
      exact List.Sublist.refl _
    · cases h
  | cons a as ih =>
    intro rest h
    unfold afterFirst at h
    split at h
    · cases h
      exact List.drop_sublist _ _
    · exact (ih h).cons a

theorem pairPattern_eq_false_of_missing {p q s : List Char} {c : Char}
    (hc : c ∈ q) (hs : c ∉ s) : pairPattern p q s = false := by
  unfold pairPattern
  split
  case h_1 rest heq =>
    refine containsSub_eq_false_of_missing hc ?_
    intro hr
    exact hs ((afterFirst_sublist heq).mem hr)
  case h_2 => rfl

theorem mem_of_head? {l : List Char} {x : Char} (h : l.head? = some x) :
    x ∈ l := by
  cases l with
  | nil => cases h
  | cons a as =>
    injection h with h1
    rw [← h1]
    exact List.mem_cons_self _ _

theorem eq_mem_of_onHandlerAt {s : List Char} (h : onHandlerAt s = true) :
    '=' ∈ s := by
  unfold onHandlerAt at h
  split at h
  case h_1 a b rest =>
    simp only [Bool.and_eq_true, beq_iff_eq] at h
    have hhead := h.2.2
    have hm : '=' ∈ rest.drop (rest.takeWhile isWordChar).length :=
      mem_of_head? hhead
    have : '=' ∈ rest := (List.drop_sublist _ _).mem hm
    exact List.mem_cons_of_mem _ (List.mem_cons_of_mem _ this)
  case h_2 => cases h

theorem containsOnHandler_mem : ∀ {s : List Char},
    containsOnHandler s = true → '=' ∈ s := by
  intro s
  induction s with
  | nil => intro h; cases h
  | cons a as ih =>
    intro h
    unfold containsOnHandler at h
    rcases Bool.or_eq_true_iff.mp h with h1 | h1
    · exact eq_mem_of_onHandlerAt h1
    · exact List.mem_cons_of_mem a (ih h1)

theorem containsOnHandler_eq_false {s : List Char} (hs : '=' ∉ s) :
    containsOnHandler s = false := by
  cases h : containsOnHandler s
  · rfl
  · exact absurd (containsOnHandler_mem h) hs

theorem jsonEscapeChar_numeric {c : Char} (h : isNumericChar c = true) :
    jsonEscapeChar c = [c] := by
  have hq : c ≠ '"' := by rintro rfl; exact absurd h (by decide)
  have hb : c ≠ '\\' := by rintro rfl; exact absurd h (by decide)
  unfold jsonEscapeChar
  rw [if_neg hq, if_neg hb]

theorem jsonEscapeString_eq_self {l : List Char}
    (h : ∀ c ∈ l, isNumericChar c = true) : jsonEscapeString l = l := by
  induction l with
  | nil => rfl
  | cons c t ih =>
    unfold jsonEscapeString at ih ⊢
    rw [List.flatMap_cons, jsonEscapeChar_numeric (h c (List.mem_cons_self c t)),
      ih fun x hx => h x (List.mem_cons_of_mem c hx)]
    rfl

theorem toLower_numeric {c : Char} (h : isNumericChar c = true) :
    c.toLower = c := by
  unfold isNumericChar at h
  simp only [Bool.or_eq_true, beq_iff_eq] at h
  rcases h with (h | h) | h
  · unfold Char.toLower
    rw [if_neg]
    simp only [Char.isDigit, Bool.and_eq_true, decide_eq_true_eq] at h
    intro hcon
    have h3 : c.toNat ≤ 57 := h.2
    omega
  · subst h; decide
  · subst h; decide

/-- All characters appearing in the fixed parts of the serialized form. -/
def litChars : List Char :=
  "\x7b\"open\":\"".data ++ "\",\"high\":\"".data ++ "\",\"low\":\"".data ++
  "\",\"close\":\"".data ++ "\",\"volume\":\"".data ++ "\"\x7d".data

theorem mem_suspiciousDataString {d : CandleFormData} {c : Char}
    (hc : c ∈ suspiciousDataString (sanitizeFormData d)) :
    isNumericChar c = true ∨ c ∈ litChars := by
  have hval : ∀ (v : String), (∀ x ∈ v.data, isNumericChar x = true) →
      c ∈ (jsonEscapeString v.data).map Char.toLower →
      isNumericChar c = true := by
    intro v hs hmem
    rw [jsonEscapeString_eq_self hs] at hmem
    obtain ⟨c0, hc0, hrw⟩ := List.mem_map.mp hmem
    rw [← hrw, toLower_numeric (hs c0 hc0)]
    exact hs c0 hc0
  unfold suspiciousDataString jsonStringifyForm at hc
  simp only [List.map_append, List.mem_append] at hc
  rcases hc with ((((((((((h | h) | h) | h) | h) | h) | h) | h) | h) | h) | h)
  · exact Or.inr ((by decide :
      ∀ x ∈ ("\x7b\"open\":\"".data.map Char.toLower), x ∈ litChars) c h)
  · exact Or.inl (hval _ (fun x hx => sanitize_alphabet x hx) h)
  · exact Or.inr ((by decide :
      ∀ x ∈ ("\",\"high\":\"".data.map Char.toLower), x ∈ litChars) c h)
  · exact Or.inl (hval _ (fun x hx => sanitize_alphabet x hx) h)
  · exact Or.inr ((by decide :
      ∀ x ∈ ("\",\"low\":\"".data.map Char.toLower), x ∈ litChars) c h)
  · exact Or.inl (hval _ (fun x hx => sanitize_alphabet x hx) h)
  · exact Or.inr ((by decide :
      ∀ x ∈ ("\",\"close\":\"".data.map Char.toLower), x ∈ litChars) c h)
  · exact Or.inl (hval _ (fun x hx => sanitize_alphabet x hx) h)
  · exact Or.inr ((by decide :
      ∀ x ∈ ("\",\"volume\":\"".data.map Char.toLower), x ∈ litChars) c h)
  · exact Or.inl (hval _ (fun x hx => sanitize_alphabet x hx) h)
  · exact Or.inr ((by decide :
      ∀ x ∈ ("\"\x7d".data.map Char.toLower), x ∈ litChars) c h)

theorem not_mem_suspiciousDataString {d : CandleFormData} {x : Char}
    (h1 : isNumericChar x = false) (h2 : x ∉ litChars) :
    x ∉ suspiciousDataString (sanitizeFormData d) := by
  intro hmem
  rcases mem_suspiciousDataString hmem with h | h
  · rw [h1] at h
    cases h
  · exact h2 h

/-! ## CandleAutocompleteService

Source: `CandleAutocompleteService.ts`.  `previousCandles` is the
caller-supplied history window; candidates carry a confidence score and a
display label.  `Array.prototype.sort` with the comparator
`(a, b) => b.confidence - a.confidence` is a stable descending sort by
confidence, embedded as insertion sort with the non-strict relation
`confGe` (a stable sort's output is uniquely determined by the comparator,
so any stable implementation is extensionally the JS sort). -/

structure AutocompleteOption where
  value : String
  label : String
  confidence : Nat
  reason : String
deriving DecidableEq

/-- The partial form passed to the suggestion entry point
(`Partial<Record<string, string>>`). -/
structure PartialFormData where
  open_ : Option String := none
  high : Option String := none
  low : Option String := none
  close : Option String := none
  volume : Option String := none
deriving DecidableEq

/-- `formData.f ? parseFloat(formData.f) : null` (empty strings are
falsy). -/
def optNum (v : Option String) : Option JsNum :=
  match v with
  | none => none
  | some s => if s = "" then none else some (parseFloat s)

/-- `x || 0` for `x : number | null`. -/
def jsOr0 (x : Option JsNum) : JsNum :=
  match x with
  | none => JsNum.num 0
  | some v => if v.truthy then v else JsNum.num 0

/-- JS truthiness of a `number | null`. -/
def jsTruthyOpt (x : Option JsNum) : Bool :=
  match x with
  | none => false
  | some v => v.truthy

/-- `Math.min(...list)` (empty call yields `Infinity`). -/
def jsMinList (l : List JsNum) : JsNum := l.foldl JsNum.min2 JsNum.inf

def confGe (a b : AutocompleteOption) : Prop := b.confidence ≤ a.confidence

instance : DecidableRel confGe := fun a b => Nat.decLe _ _

instance : IsTotal AutocompleteOption confGe :=
  ⟨fun a b => le_total b.confidence a.confidence⟩

instance : IsTrans AutocompleteOption confGe :=
  ⟨fun _ _ _ hab hbc => le_trans hbc hab⟩

/-- Stable descending sort by confidence (the JS
`sort((a, b) => b.confidence - a.confidence)`). -/
def sortByConfidenceDesc (l : List AutocompleteOption) : List AutocompleteOption :=
  l.insertionSort confGe

/-- Placeholder for an out-of-range JS array access; every `getD` below is
guarded by a length test, so it is never read. -/
def defaultCandle : CandleData where
  session_id := ""
  candle_index := 0
  open_ := JsNum.num 0
  high := JsNum.num 0
  low := JsNum.num 0
  close := JsNum.num 0
  volume := JsNum.num 0
  candle_datetime := ""

/-- `slice(-n)` (the last `n` elements). -/
def sliceLast (l : List CandleData) (n : Nat) : List CandleData :=
  l.drop (l.length - n)

/-- 20-period average of `high - low` over the last 20 candles. -/
def avgRange20 (previousCandles : List CandleData) : JsNum :=
  (sliceLast previousCandles 20).foldl
    (fun sum c => sum + (c.high - c.low)) (JsNum.num 0) / JsNum.num 20

/-- `getSuggestionsForOpen` (lines 23–61). -/
def getSuggestionsForOpen (previousCandles : List CandleData) :
    List AutocompleteOption :=
  if previousCandles.isEmpty then []
  else
    let lastCandle := previousCandles.getLastD defaultCandle
    [⟨jsToFixed lastCandle.close 5,
      jsToFixed lastCandle.close 5 ++ " (Закрытие предыдущей)", 90,
      "Открытие обычно равно закрытию предыдущей свечи"⟩] ++
    (if 3 ≤ previousCandles.length then
      let m := min previousCandles.length 10
      let gaps := (List.range (m - 1)).map fun j =>
        (previousCandles.getD (j + 1) defaultCandle).open_ -
          (previousCandles.getD j defaultCandle).close
      let avgGap := gaps.foldl (· + ·) (JsNum.num 0) / JsNum.num gaps.length
      if avgGap.abs.gt (JsNum.num (1 / 100000)) then
        let openWithGap := lastCandle.close + avgGap
        [⟨jsToFixed openWithGap 5,
          jsToFixed openWithGap 5 ++ " (С учетом среднего гэпа)", 60,
          "Средний гэп: " ++ (if avgGap.gt (JsNum.num 0) then "+" else "") ++
            jsToFixed avgGap 5⟩]
      else []
    else [])

/-- `getSuggestionsForHigh` (lines 66–110). -/
def getSuggestionsForHigh (formData : PartialFormData)
    (previousCandles : List CandleData) : List AutocompleteOption :=
  let o := optNum formData.open_
  let l := optNum formData.low
  let c := optNum formData.close
  let minHigh := JsNum.max2 (JsNum.max2 (jsOr0 o) (jsOr0 l)) (jsOr0 c)
  (if minHigh.gt (JsNum.num 0) then
    [⟨jsToFixed minHigh 5, jsToFixed minHigh 5 ++ " (Минимально допустимое)",
      80, "High должен быть >= Open, Low, Close"⟩]
   else []) ++
  (if 20 ≤ previousCandles.length then
    let avgRange := avgRange20 previousCandles
    if jsTruthyOpt o && jsTruthyOpt l then
      let suggestedHigh :=
        JsNum.max2 (o.getD (JsNum.num 0)) (l.getD (JsNum.num 0)) + avgRange
      [⟨jsToFixed suggestedHigh 5,
        jsToFixed suggestedHigh 5 ++ " (На основе среднего диапазона)", 70,
        "Средний диапазон: " ++ jsToFixed avgRange 5⟩]
    else []
   else [])

/-- `getSuggestionsForLow` (lines 115–155).  With no non-null entered
field, `Math.min()` of the empty spread is `Infinity`, which passes the
`> 0` guard and produces a degenerate `Infinity` candidate. -/
def getSuggestionsForLow (formData : PartialFormData)
    (previousCandles : List CandleData) : List AutocompleteOption :=
  let o := optNum formData.open_
  let h := optNum formData.high
  let c := optNum formData.close
  let maxLow := jsMinList (([o, h, c].filterMap id))
  (if maxLow.gt (JsNum.num 0) then
    [⟨jsToFixed maxLow 5, jsToFixed maxLow 5 ++ " (Максимально допустимое)",
      80, "Low должен быть <= Open, High, Close"⟩]
   else []) ++
  (if 20 ≤ previousCandles.length && jsTruthyOpt h then
    let avgRange := avgRange20 previousCandles
    let suggestedLow := h.getD (JsNum.num 0) - avgRange
    [⟨jsToFixed suggestedLow 5,
      jsToFixed suggestedLow 5 ++ " (На основе среднего диапазона)", 70,
      "Средний диапазон: " ++ jsToFixed avgRange 5⟩]
   else [])

/-- The candidate list of `getSuggestionsForClose` (lines 160–227) before
the final sort. -/
def closeRawSuggestions (formData : PartialFormData)
    (previousCandles : List CandleData) : List AutocompleteOption :=
  let o := optNum formData.open_
  let h := optNum formData.high
  let l := optNum formData.low
  let ov := o.getD (JsNum.num 0)
  let hv := h.getD (JsNum.num 0)
  let lv := l.getD (JsNum.num 0)
  (if jsTruthyOpt o && jsTruthyOpt h && jsTruthyOpt l then
    let bullishClose := ov + (hv - lv) * JsNum.num (7 / 10)
    let bearishClose := ov - (hv - lv) * JsNum.num (7 / 10)
    [⟨jsToFixed ov 5, jsToFixed ov 5 ++ " (Доджи)", 50,
      "Close = Open (нейтральная свеча)"⟩,
     ⟨jsToFixed bullishClose 5, jsToFixed bullishClose 5 ++ " (Бычья свеча)",
      60, "Закрытие около максимума"⟩,
     ⟨jsToFixed bearishClose 5, jsToFixed bearishClose 5 ++ " (Медвежья свеча)",
      60, "Закрытие около минимума"⟩]
   else []) ++
  (if 5 ≤ previousCandles.length then
    let last5 := sliceLast previousCandles 5
    let bullishCount := (last5.filter fun cd => cd.close.gt cd.open_).length
    if jsTruthyOpt o && jsTruthyOpt h && jsTruthyOpt l then
      if 4 ≤ bullishCount then
        let trendClose := ov + (hv - ov) * JsNum.num (4 / 5)
        [⟨jsToFixed trendClose 5,
          jsToFixed trendClose 5 ++ " (Продолжение тренда)", 75,
          "Сильный восходящий тренд"⟩]
      else if bullishCount ≤ 1 then
        let trendClose := ov - (ov - lv) * JsNum.num (4 / 5)
        [⟨jsToFixed trendClose 5,
          jsToFixed trendClose 5 ++ " (Продолжение тренда)", 75,
          "Сильный нисходящий тренд"⟩]
      else []
    else []
   else [])

/-- `getSuggestionsForClose`: the raw candidates, sorted stably by
descending confidence. -/
def getSuggestionsForClose (formData : PartialFormData)
    (previousCandles : List CandleData) : List AutocompleteOption :=
  sortByConfidenceDesc (closeRawSuggestions formData previousCandles)

/-- The candidate list of `getSuggestionsForVolume` (lines 232–275) before
the final sort. -/
def volumeRawSuggestions (previousCandles : List CandleData) :
    List AutocompleteOption :=
  if previousCandles.isEmpty then []
  else
    let lastCandle := previousCandles.getLastD defaultCandle
    [⟨jsNumToString lastCandle.volume,
      jsToLocaleString lastCandle.volume ++ " (Предыдущий объем)", 70,
      "Объем предыдущей свечи"⟩] ++
    (if 20 ≤ previousCandles.length then
      let avgVolume := JsNum.round ((sliceLast previousCandles 20).foldl
        (fun sum c => sum + c.volume) (JsNum.num 0) / JsNum.num 20)
      [⟨jsNumToString avgVolume,
        jsToLocaleString avgVolume ++ " (Средний объем)", 85,
        "Средний объем за 20 свечей"⟩]
     else []) ++
    (if 10 ≤ previousCandles.length then
      let volumes := ((sliceLast previousCandles 10).map (·.volume)).insertionSort
        (fun a b => a.le b = true)
      let medianVolume := volumes.getD (volumes.length / 2) (JsNum.num 0)
      [⟨jsNumToString medianVolume,
        jsToLocaleString medianVolume ++ " (Медианный объем)", 80,
        "Медианный объем за 10 свечей"⟩]
     else [])

/-- `getSuggestionsForVolume`: raw candidates sorted stably by descending
confidence. -/
def getSuggestionsForVolume (previousCandles : List CandleData) :
    List AutocompleteOption :=
  sortByConfidenceDesc (volumeRawSuggestions previousCandles)

/-- The field argument of `getSuggestions`
(`'open' | 'high' | 'low' | 'close' | 'volume'`). -/
inductive SuggestionField where
  | open_ | high | low | close | volume
deriving DecidableEq

/-- The pre-sort candidate list of each field (for `open`/`high`/`low` the
source applies no sort, so raw and result coincide). -/
def rawSuggestions (field : SuggestionField) (formData : PartialFormData)
    (previousCandles : List CandleData) : List AutocompleteOption :=
  match field with
  | .open_ => getSuggestionsForOpen previousCandles
  | .high => getSuggestionsForHigh formData previousCandles
  | .low => getSuggestionsForLow formData previousCandles
  | .close => closeRawSuggestions formData previousCandles
  | .volume => volumeRawSuggestions previousCandles

/-- `CandleAutocompleteService.getSuggestions` (lines 280–304); the
try/catch cannot fire (every branch is total). -/
def getSuggestions (field : SuggestionField) (formData : PartialFormData)
    (previousCandles : List CandleData) : List AutocompleteOption :=
  match field with
  | .open_ => getSuggestionsForOpen previousCandles
  | .high => getSuggestionsForHigh formData previousCandles
  | .low => getSuggestionsForLow formData previousCandles
  | .close => getSuggestionsForClose formData previousCandles
  | .volume => getSuggestionsForVolume previousCandles

/-! ### Sortedness and stability of the suggestion lists (claim C8) -/

theorem sorted_sortByConfidenceDesc (l : List AutocompleteOption) :
    List.Sorted confGe (sortByConfidenceDesc l) :=
  List.sorted_insertionSort confGe l

theorem filter_orderedInsert_conf (n : Nat) (a : AutocompleteOption)
    (m : List AutocompleteOption) :
    (List.orderedInsert confGe a m).filter (fun o => o.confidence == n) =
      if a.confidence = n then
        a :: m.filter (fun o => o.confidence == n)
      else m.filter (fun o => o.confidence == n) := by
  induction m with
  | nil =>
    by_cases h : a.confidence = n <;>
      simp [List.orderedInsert, List.filter_cons, h]
  | cons b t ih =>
    unfold List.orderedInsert
    by_cases hr : confGe a b
    · rw [if_pos hr]
      by_cases h : a.confidence = n <;>
        simp [List.filter_cons, h]
    · rw [if_neg hr]
      have hgt : a.confidence < b.confidence := by
        unfold confGe at hr
        omega
      by_cases h : a.confidence = n
      · have hbn : ¬ b.confidence = n := by omega
        simp [List.filter_cons, hbn, ih, h]
      · by_cases hb : b.confidence = n <;>
          simp [List.filter_cons, hb, ih, h]

theorem filter_sortByConfidenceDesc (n : Nat) (l : List AutocompleteOption) :
    (sortByConfidenceDesc l).filter (fun o => o.confidence == n) =
      l.filter (fun o => o.confidence == n) := by
  unfold sortByConfidenceDesc
  induction l with
  | nil => rfl
  | cons a t ih =>
    rw [List.insertionSort, filter_orderedInsert_conf]
    by_cases h : a.confidence = n
    · rw [if_pos h, ih, List.filter_cons, if_pos (by simpa using h)]
    · rw [if_neg h, ih, List.filter_cons, if_neg (by simpa using h)]

theorem sorted_getSuggestionsForOpen (pc : List CandleData) :
    List.Sorted confGe (getSuggestionsForOpen pc) := by
  unfold getSuggestionsForOpen
  dsimp only
  split_ifs <;> try simp [List.sorted_cons, confGe]
  all_goals (split_ifs <;> simp [List.sorted_cons, confGe])

theorem sorted_getSuggestionsForHigh (fd : PartialFormData)
    (pc : List CandleData) :
    List.Sorted confGe (getSuggestionsForHigh fd pc) := by
  unfold getSuggestionsForHigh
  dsimp only
  split_ifs <;> try simp [List.sorted_cons, confGe]
  all_goals (split_ifs <;> simp [List.sorted_cons, confGe])

theorem sorted_getSuggestionsForLow (fd : PartialFormData)
    (pc : List CandleData) :
    List.Sorted confGe (getSuggestionsForLow fd pc) := by
  unfold getSuggestionsForLow
  dsimp only
  split_ifs <;> try simp [List.sorted_cons, confGe]
  all_goals (split_ifs <;> simp [List.sorted_cons, confGe])

/-! ## CandleIndexService

Source: `src/services/candle/CandleIndexService.ts`.  The three `Map`s are
association lists; `new Date(s).getTime()` is an abstract timestamp
function `parseTime : String → Nat` threaded as a parameter (its only
relevant property is which datetime strings collide). -/

structure CandleIndex where
  byId : List (String × CandleData)
  bySessionId : List (String × List CandleData)
  byTimestamp : List (Nat × CandleData)
deriving DecidableEq

def emptyIndex : CandleIndex := ⟨[], [], []⟩

/-- The per-candle insertion body, shared verbatim between `buildIndices`
(lines 36–51) and `addCandle` (lines 129–141): index by id when present;
create the session bucket if missing and push; index by timestamp.  The
"create empty bucket, then push" pair is the single update
`set session (bucket.getD [] ++ [candle])`. -/
def addCandle (parseTime : String → Nat) (idx : CandleIndex)
    (candle : CandleData) : CandleIndex :=
  let byId :=
    match candle.id with
    | some i => jsMapSet idx.byId i candle
    | none => idx.byId
  let bucket := (jsMapGet idx.bySessionId candle.session_id).getD []
  let bySessionId := jsMapSet idx.bySessionId candle.session_id (bucket ++ [candle])
  let byTimestamp :=
    jsMapSet idx.byTimestamp (parseTime candle.candle_datetime) candle
  ⟨byId, bySessionId, byTimestamp⟩

/-- `buildIndices` (lines 29–58): clear, then insert every candle. -/
def buildIndices (parseTime : String → Nat) (candles : List CandleData) :
    CandleIndex :=
  candles.foldl (addCandle parseTime) emptyIndex

def getCandleById (idx : CandleIndex) (id : String) : Option CandleData :=
  jsMapGet idx.byId id

def getCandlesBySessionId (idx : CandleIndex) (sessionId : String) :
    List CandleData :=
  (jsMapGet idx.bySessionId sessionId).getD []

def getCandleByTimestamp (idx : CandleIndex) (timestamp : Nat) :
    Option CandleData :=
  jsMapGet idx.byTimestamp timestamp

/-- `findIndex` by id + `splice(index, 1)`: remove the first element whose
id matches (no change when there is no match). -/
def listRemoveById (l : List CandleData) (id : String) : List CandleData :=
  match l with
  | [] => []
  | c :: t => if c.id = some id then t else c :: listRemoveById t id

/-- `removeCandle` (lines 146–165). -/
def removeCandle (parseTime : String → Nat) (idx : CandleIndex)
    (candleId : String) : CandleIndex :=
  match jsMapGet idx.byId candleId with
  | none => idx
  | some candle =>
    let byId := jsMapDelete idx.byId candleId
    let bySessionId :=
      match jsMapGet idx.bySessionId candle.session_id with
      | none => idx.bySessionId
      | some bucket =>
        jsMapSet idx.bySessionId candle.session_id (listRemoveById bucket candleId)
    let byTimestamp :=
      jsMapDelete idx.byTimestamp (parseTime candle.candle_datetime)
    ⟨byId, bySessionId, byTimestamp⟩

/-- One `addOne`/`removeOne` maintenance operation. -/
inductive IndexOp where
  | add (c : CandleData)
  | remove (id : String)

def applyIndexOp (parseTime : String → Nat) (idx : CandleIndex) :
    IndexOp → CandleIndex
  | .add c => addCandle parseTime idx c
  | .remove id => removeCandle parseTime idx id

def applyIndexOps (parseTime : String → Nat) (idx : CandleIndex)
    (ops : List IndexOp) : CandleIndex :=
  ops.foldl (applyIndexOp parseTime) idx

/-- The same operations applied to the underlying record list (the "final
record set" of the claim). -/
def applyListOp (l : List CandleData) : IndexOp → List CandleData
  | .add c => l ++ [c]
  | .remove id => listRemoveById l id

def applyListOps (l : List CandleData) (ops : List IndexOp) : List CandleData :=
  ops.foldl applyListOp l

/-! ### Convergence of incremental maintenance with rebuild (claim C9) -/

def idsOf (l : List CandleData) : List String := l.filterMap (·.id)

def tsOf (parseTime : String → Nat) (l : List CandleData) : List Nat :=
  l.map fun c => parseTime c.candle_datetime

/-- Well-formed record set: defined ids pairwise distinct, timestamps
pairwise distinct. -/
def WFRecords (parseTime : String → Nat) (l : List CandleData) : Prop :=
  (idsOf l).Nodup ∧ (tsOf parseTime l).Nodup

/-- Validity of a maintenance sequence: every added record carries a fresh
timestamp and (when defined) a fresh id for the then-current record set. -/
def ValidOps (parseTime : String → Nat) : List CandleData → List IndexOp → Prop
  | _, [] => True
  | l, .add c :: rest =>
    (∀ d ∈ l, parseTime d.candle_datetime ≠ parseTime c.candle_datetime) ∧
    (∀ i, c.id = some i → ∀ d ∈ l, d.id ≠ some i) ∧
    ValidOps parseTime (l ++ [c]) rest
  | l, .remove id :: rest => ValidOps parseTime (listRemoveById l id) rest

def idIndexOf (l : List CandleData) : List (String × CandleData) :=
  l.filterMap fun c => c.id.map fun i => (i, c)

def tsIndexOf (parseTime : String → Nat) (l : List CandleData) :
    List (Nat × CandleData) :=
  l.map fun c => (parseTime c.candle_datetime, c)

/-- The index contents determined by a record list. -/
structure IndexInv (parseTime : String → Nat) (l : List CandleData)
    (idx : CandleIndex) : Prop where
  idPart : idx.byId = idIndexOf l
  tsPart : idx.byTimestamp = tsIndexOf parseTime l
  sessionPart : ∀ sid, getCandlesBySessionId idx sid =
    l.filter fun c => c.session_id == sid

theorem jsMapGet_set_ne {α β : Type} [DecidableEq α] (m : List (α × β))
    {k k' : α} (v : β) (h : k ≠ k') :
    jsMapGet (jsMapSet m k v) k' = jsMapGet m k' := by
  induction m with
  | nil => simp [jsMapSet, jsMapGet, h]
  | cons p t ih =>
    obtain ⟨k0, v0⟩ := p
    by_cases h0 : k0 = k
    · subst h0
      simp [jsMapSet, jsMapGet, h]
    · by_cases h1 : k0 = k'
      · subst h1
        simp [jsMapSet, jsMapGet, h0]
      · simp [jsMapSet, jsMapGet, h0, h1, ih]

theorem jsMapSet_append_of_fresh {α β : Type} [DecidableEq α]
    {m : List (α × β)} {k : α} (v : β) (h : ∀ p ∈ m, p.1 ≠ k) :
    jsMapSet m k v = m ++ [(k, v)] := by
  induction m with
  | nil => rfl
  | cons p t ih =>
    obtain ⟨k0, v0⟩ := p
    have hne : k0 ≠ k := h (k0, v0) (List.mem_cons_self _ _)
    simp [jsMapSet, hne, ih fun q hq => h q (List.mem_cons_of_mem _ hq)]

theorem jsMapGet_eq_none {α β : Type} [DecidableEq α] {m : List (α × β)}
    {k : α} (h : ∀ p ∈ m, p.1 ≠ k) : jsMapGet m k = none := by
  induction m with
  | nil => rfl
  | cons p t ih =>
    obtain ⟨k0, v0⟩ := p
    have hne : k0 ≠ k := h (k0, v0) (List.mem_cons_self _ _)
    simp [jsMapGet, hne, ih fun q hq => h q (List.mem_cons_of_mem _ hq)]

theorem jsMapDelete_append_first {α β : Type} [DecidableEq α]
    {m1 : List (α × β)} {k : α} {v : β} (m2 : List (α × β))
    (h : ∀ p ∈ m1, p.1 ≠ k) :
    jsMapDelete (m1 ++ (k, v) :: m2) k = m1 ++ m2 := by
  induction m1 with
  | nil => simp [jsMapDelete]
  | cons p t ih =>
    obtain ⟨k0, v0⟩ := p
    have hne : k0 ≠ k := h (k0, v0) (List.mem_cons_self _ _)
    simp [jsMapDelete, hne, ih fun q hq => h q (List.mem_cons_of_mem _ hq)]

theorem mem_idIndexOf {l : List CandleData} {p : String × CandleData}
    (h : p ∈ idIndexOf l) : p.2 ∈ l ∧ p.2.id = some p.1 := by
  unfold idIndexOf at h
  obtain ⟨c, hc, hmap⟩ := List.mem_filterMap.mp h
  cases hid : c.id with
  | none => rw [hid] at hmap; cases hmap
  | some i =>
    rw [hid] at hmap
    simp only [Option.map_some'] at hmap
    injection hmap with hmap2
    rw [← hmap2]
    exact ⟨hc, hid⟩

theorem idIndexOf_append (l1 l2 : List CandleData) :
    idIndexOf (l1 ++ l2) = idIndexOf l1 ++ idIndexOf l2 :=
  List.filterMap_append _ _ _

theorem tsIndexOf_append (parseTime : String → Nat) (l1 l2 : List CandleData) :
    tsIndexOf parseTime (l1 ++ l2) =
      tsIndexOf parseTime l1 ++ tsIndexOf parseTime l2 :=
  List.map_append _ _ _

theorem indexInv_add {parseTime : String → Nat} {l : List CandleData}
    {idx : CandleIndex} {c : CandleData}
    (h : IndexInv parseTime l idx)
    (hts : ∀ d ∈ l, parseTime d.candle_datetime ≠ parseTime c.candle_datetime)
    (hid : ∀ i, c.id = some i → ∀ d ∈ l, d.id ≠ some i) :
    IndexInv parseTime (l ++ [c]) (addCandle parseTime idx c) := by
  refine ⟨?_, ?_, ?_⟩
  · show (addCandle parseTime idx c).byId = _
    unfold addCandle
    dsimp only
    rw [idIndexOf_append]
    cases hcid : c.id with
    | none =>
      dsimp only
      rw [h.idPart]
      simp [idIndexOf, hcid]
    | some i =>
      dsimp only
      rw [h.idPart, jsMapSet_append_of_fresh]
      · simp [idIndexOf, hcid]
      · intro p hp hpk
        obtain ⟨hmem, hpid⟩ := mem_idIndexOf hp
        exact hid i hcid p.2 hmem (by rw [hpid, hpk])
  · show (addCandle parseTime idx c).byTimestamp = _
    unfold addCandle
    dsimp only
    rw [h.tsPart, jsMapSet_append_of_fresh, tsIndexOf_append]
    · rfl
    · intro p hp hpk
      obtain ⟨d, hd, hpd⟩ := List.mem_map.mp hp
      have : p.1 = parseTime d.candle_datetime := by rw [← hpd]
      exact hts d hd (by rw [← this, hpk])
  · intro sid
    show getCandlesBySessionId (addCandle parseTime idx c) sid = _
    unfold getCandlesBySessionId addCandle
    dsimp only
    rw [List.filter_append]
    by_cases hs : c.session_id = sid
    · subst hs
      rw [jsMapGet_set_self]
      have hb := h.sessionPart c.session_id
      unfold getCandlesBySessionId at hb
      simp [hb, List.filter_cons]
    · rw [jsMapGet_set_ne _ _ hs]
      have hb := h.sessionPart sid
      unfold getCandlesBySessionId at hb
      have hcf : ([c].filter fun d => d.session_id == sid) = [] := by
        rw [List.filter_cons, if_neg (by simp [hs])]
        rfl
      rw [hcf, List.append_nil]
      exact hb

theorem get_idIndexOf_some {l : List CandleData} {id : String} {c : CandleData}
    (h : jsMapGet (idIndexOf l) id = some c) :
    ∃ l1 l2, l = l1 ++ c :: l2 ∧ c.id = some id ∧
      ∀ d ∈ l1, d.id ≠ some id := by
  induction l with
  | nil => cases h
  | cons d t ih =>
    cases hdid : d.id with
    | none =>
      have hstep : idIndexOf (d :: t) = idIndexOf t := by
        simp [idIndexOf, List.filterMap_cons, hdid]
      rw [hstep] at h
      obtain ⟨l1, l2, heq, hcid, hl1⟩ := ih h
      refine ⟨d :: l1, l2, by rw [heq]; rfl, hcid, ?_⟩
      intro x hx
      rcases List.mem_cons.mp hx with h1 | h1
      · rw [h1, hdid]
        exact fun hcon => Option.noConfusion hcon
      · exact hl1 x h1
    | some j =>
      have hstep : idIndexOf (d :: t) = (j, d) :: idIndexOf t := by
        simp [idIndexOf, List.filterMap_cons, hdid]
      rw [hstep] at h
      unfold jsMapGet at h
      by_cases hj : j = id
      · rw [if_pos hj] at h
        injection h with h1
        refine ⟨[], t, by simp [h1], by rw [← h1, hdid, hj], ?_⟩
        intro x hx
        cases hx
      · rw [if_neg hj] at h
        obtain ⟨l1, l2, heq, hcid, hl1⟩ := ih h
        refine ⟨d :: l1, l2, by rw [heq]; rfl, hcid, ?_⟩
        intro x hx
        rcases List.mem_cons.mp hx with h1 | h1
        · rw [h1, hdid]
          intro hcon
          injection hcon with hcon2
          exact hj hcon2
        · exact hl1 x h1

theorem get_idIndexOf_none {l : List CandleData} {id : String}
    (h : jsMapGet (idIndexOf l) id = none) : ∀ d ∈ l, d.id ≠ some id := by
  induction l with
  | nil => intro d hd; cases hd
  | cons d t ih =>
    intro x hx
    cases hdid : d.id with
    | none =>
      have hstep : idIndexOf (d :: t) = idIndexOf t := by
        simp [idIndexOf, List.filterMap_cons, hdid]
      rw [hstep] at h
      rcases List.mem_cons.mp hx with h1 | h1
      · rw [h1, hdid]
        exact fun hcon => Option.noConfusion hcon
      · exact ih h x h1
    | some j =>
      have hstep : idIndexOf (d :: t) = (j, d) :: idIndexOf t := by
        simp [idIndexOf, List.filterMap_cons, hdid]
      rw [hstep] at h
      unfold jsMapGet at h
      by_cases hj : j = id
      · rw [if_pos hj] at h
        cases h
      · rw [if_neg hj] at h
        rcases List.mem_cons.mp hx with h1 | h1
        · rw [h1, hdid]
          intro hcon
          injection hcon with hcon2
          exact hj hcon2
        · exact ih h x h1

theorem listRemoveById_no_match {l : List CandleData} {id : String}
    (h : ∀ d ∈ l, d.id ≠ some id) : listRemoveById l id = l := by
  induction l with
  | nil => rfl
  | cons d t ih =>
    simp only [listRemoveById]
    rw [if_neg (h d (List.mem_cons_self _ _)),
      ih fun x hx => h x (List.mem_cons_of_mem _ hx)]

theorem listRemoveById_append {l1 l2 : List CandleData} {c : CandleData}
    {id : String} (hl1 : ∀ d ∈ l1, d.id ≠ some id) (hc : c.id = some id) :
    listRemoveById (l1 ++ c :: l2) id = l1 ++ l2 := by
  induction l1 with
  | nil =>
    rw [List.nil_append, List.nil_append]
    simp only [listRemoveById]
    rw [if_pos hc]
  | cons d t ih =>
    rw [List.cons_append, List.cons_append]
    simp only [listRemoveById]
    rw [if_neg (hl1 d (List.mem_cons_self _ _)),
      ih fun x hx => hl1 x (List.mem_cons_of_mem _ hx)]

theorem indexInv_remove {parseTime : String → Nat} {l : List CandleData}
    {idx : CandleIndex} {id : String}
    (h : IndexInv parseTime l idx) (hwf : WFRecords parseTime l) :
    IndexInv parseTime (listRemoveById l id) (removeCandle parseTime idx id) := by
  cases hget : jsMapGet idx.byId id with
  | none =>
    have hnone : ∀ d ∈ l, d.id ≠ some id :=
      get_idIndexOf_none (by rw [← h.idPart]; exact hget)
    rw [listRemoveById_no_match hnone]
    unfold removeCandle
    rw [hget]
    exact h
  | some c =>
    have hget' : jsMapGet (idIndexOf l) id = some c := by
      rw [← h.idPart]; exact hget
    obtain ⟨l1, l2, heq, hcid, hl1⟩ := get_idIndexOf_some hget'
    subst heq
    rw [listRemoveById_append hl1 hcid]
    unfold removeCandle
    rw [hget]
    dsimp only
    have hcin : c ∈ (l1 ++ c :: l2).filter fun d => d.session_id == c.session_id := by
      rw [List.mem_filter]
      exact ⟨List.mem_append_right _ (List.mem_cons_self _ _), by simp⟩
    have hbuck := h.sessionPart c.session_id
    unfold getCandlesBySessionId at hbuck
    cases hgs : jsMapGet idx.bySessionId c.session_id with
    | none =>
      rw [hgs] at hbuck
      simp only [Option.getD_none] at hbuck
      rw [← hbuck] at hcin
      cases hcin
    | some bucket =>
      rw [hgs] at hbuck
      simp only [Option.getD_some] at hbuck
      subst hbuck
      refine ⟨?_, ?_, ?_⟩
      · show jsMapDelete idx.byId id = idIndexOf (l1 ++ l2)
        rw [h.idPart, idIndexOf_append, idIndexOf_append]
        have hsplit : idIndexOf (c :: l2) = (id, c) :: idIndexOf l2 := by
          simp [idIndexOf, List.filterMap_cons, hcid]
        rw [hsplit]
        refine jsMapDelete_append_first _ ?_
        intro p hp hpk
        obtain ⟨hmem, hpid⟩ := mem_idIndexOf hp
        exact hl1 p.2 hmem (by rw [hpid, hpk])
      · show jsMapDelete idx.byTimestamp (parseTime c.candle_datetime) =
          tsIndexOf parseTime (l1 ++ l2)
        rw [h.tsPart, tsIndexOf_append, tsIndexOf_append]
        have hsplit : tsIndexOf parseTime (c :: l2) =
            (parseTime c.candle_datetime, c) :: tsIndexOf parseTime l2 := rfl
        rw [hsplit]
        refine jsMapDelete_append_first _ ?_
        intro p hp hpk
        obtain ⟨d, hd, hpd⟩ := List.mem_map.mp hp
        have hnd := hwf.2
        unfold tsOf at hnd
        rw [List.map_append, List.nodup_append] at hnd
        have hdisj := hnd.2.2
        have hp1 : p.1 = parseTime d.candle_datetime := by rw [← hpd]
        rw [hp1] at hpk
        refine hdisj (List.mem_map_of_mem _ hd) ?_
        rw [hpk]
        simp
      · intro sid
        by_cases hs : c.session_id = sid
        · show (jsMapGet (jsMapSet idx.bySessionId c.session_id _) sid).getD [] = _
          rw [← hs, jsMapGet_set_self]
          simp only [Option.getD_some]
          rw [List.filter_append, List.filter_cons, if_pos (by simp)]
          rw [listRemoveById_append (fun d hd => hl1 d (List.mem_filter.mp hd).1) hcid,
            List.filter_append]
        · show (jsMapGet (jsMapSet idx.bySessionId c.session_id _) sid).getD [] = _
          rw [jsMapGet_set_ne _ _ hs]
          have hb := h.sessionPart sid
          unfold getCandlesBySessionId at hb
          rw [hb, List.filter_append, List.filter_append, List.filter_cons,
            if_neg (by simp [hs])]

theorem wf_add {parseTime : String → Nat} {l : List CandleData} {c : CandleData}
    (hwf : WFRecords parseTime l)
    (hts : ∀ d ∈ l, parseTime d.candle_datetime ≠ parseTime c.candle_datetime)
    (hid : ∀ i, c.id = some i → ∀ d ∈ l, d.id ≠ some i) :
    WFRecords parseTime (l ++ [c]) := by
  constructor
  · show (idsOf (l ++ [c])).Nodup
    unfold idsOf
    rw [List.filterMap_append]
    refine List.Nodup.append hwf.1 ?_ ?_
    · cases hcid : c.id <;> simp [hcid]
    · intro i hi1 hi2
      obtain ⟨d, hd, hdi⟩ := List.mem_filterMap.mp hi1
      cases hcid : c.id with
      | none => simp [hcid] at hi2
      | some j =>
        simp [hcid] at hi2
        subst hi2
        exact hid i hcid d hd hdi
  · show (tsOf parseTime (l ++ [c])).Nodup
    unfold tsOf
    rw [List.map_append]
    refine List.Nodup.append hwf.2 (by simp) ?_
    intro t ht1 ht2
    obtain ⟨d, hd, hdt⟩ := List.mem_map.mp ht1
    simp at ht2
    exact hts d hd (by rw [hdt, ht2])

theorem listRemoveById_sublist (l : List CandleData) (id : String) :
    (listRemoveById l id).Sublist l := by
  induction l with
  | nil => exact List.Sublist.refl _
  | cons d t ih =>
    simp only [listRemoveById]
    split
    · exact (List.sublist_cons_self d t)
    · exact ih.cons₂ d

theorem wf_sublist {parseTime : String → Nat} {l' l : List CandleData}
    (hsub : l'.Sublist l) (hwf : WFRecords parseTime l) :
    WFRecords parseTime l' :=
  ⟨hwf.1.sublist (hsub.filterMap _), hwf.2.sublist (hsub.map _)⟩

theorem indexInv_applyOps {parseTime : String → Nat} :
    ∀ (ops : List IndexOp) (l : List CandleData) (idx : CandleIndex),
      IndexInv parseTime l idx → WFRecords parseTime l →
      ValidOps parseTime l ops →
      IndexInv parseTime (applyListOps l ops) (applyIndexOps parseTime idx ops) := by
  intro ops
  induction ops with
  | nil => intro l idx h _ _; exact h
  | cons op rest ih =>
    intro l idx h hwf hops
    cases op with
    | add c =>
      obtain ⟨hts, hid, hrest⟩ := hops
      exact ih (l ++ [c]) _ (indexInv_add h hts hid) (wf_add hwf hts hid) hrest
    | remove id =>
      exact ih (listRemoveById l id) _ (indexInv_remove h hwf)
        (wf_sublist (listRemoveById_sublist l id) hwf) hops

theorem indexInv_buildIndices {parseTime : String → Nat}
    (l : List CandleData) (hwf : WFRecords parseTime l) :
    IndexInv parseTime l (buildIndices parseTime l) := by
  induction l using List.reverseRecOn with
  | nil => exact ⟨rfl, rfl, fun _ => rfl⟩
  | append_singleton t c ih =>
    have hwt : WFRecords parseTime t :=
      wf_sublist (List.sublist_append_left t [c]) hwf
    have hts : ∀ d ∈ t, parseTime d.candle_datetime ≠
        parseTime c.candle_datetime := by
      have hnd := hwf.2
      unfold tsOf at hnd
      rw [List.map_append, List.nodup_append] at hnd
      intro d hd heq
      exact hnd.2.2 (List.mem_map_of_mem _ hd) (by simp [heq])
    have hid : ∀ i, c.id = some i → ∀ d ∈ t, d.id ≠ some i := by
      have hnd := hwf.1
      unfold idsOf at hnd
      rw [List.filterMap_append, List.nodup_append] at hnd
      intro i hci d hd hdi
      refine hnd.2.2 (List.mem_filterMap.mpr ⟨d, hd, hdi⟩) ?_
      simp [hci]
    have hstep := indexInv_add (ih hwt) hts hid
    unfold buildIndices at hstep ⊢
    rw [List.foldl_append]
    exact hstep

theorem wf_applyOps {parseTime : String → Nat} :
    ∀ (ops : List IndexOp) (l : List CandleData),
      WFRecords parseTime l → ValidOps parseTime l ops →
      WFRecords parseTime (applyListOps l ops) := by
  intro ops
  induction ops with
  | nil => intro l hwf _; exact hwf
  | cons op rest ih =>
    intro l hwf hops
    cases op with
    | add c =>
      obtain ⟨hts, hid, hrest⟩ := hops
      exact ih (l ++ [c]) (wf_add hwf hts hid) hrest
    | remove id =>
      exact ih (listRemoveById l id)
        (wf_sublist (listRemoveById_sublist l id) hwf) hops

end Candle

/-- **C7** — Sanitizer idempotence: for every input string `x`,
`sanitize(sanitize(x)) == sanitize(x)`, where the sanitizer applies, in
order, non-numeric stripping, multi-dot collapse, multi-minus collapse,
non-leading-minus removal, truncation to 8 decimal places and truncation
to 20 total characters (`CandleSecurityService.sanitizeNumericInput`). -/
theorem C7_sanitizeNumericInput_idempotent (s : String) :
    Candle.sanitizeNumericInput (Candle.sanitizeNumericInput s) =
      Candle.sanitizeNumericInput s := by
  unfold Candle.sanitizeNumericInput
  exact congrArg String.mk (Candle.shape_sanitize_eq (Candle.sanitize_shape s.data))

/-- **C2 (counterexample)** — The claim says the undo history is bounded to
the most recent 50 committed entries.  In `CandleInputCore`, committing 51
records leaves all 51 on the undo stack: nothing is ever dropped. -/
theorem C2_counterexample :
    (((List.range 51).map Candle.testCandle).foldl Candle.commitHistory
      ⟨[], []⟩).undoStack.length = 51 := by
  rw [Candle.foldl_commitHistory_undoStack]
  simp

/-- **C2 (amended)** — The undo history of the editing core is unbounded:
a commit pushes the record onto the undo stack and never drops an entry,
so after any sequence of commits the undo stack holds every committed
record (the 50-entry drop-oldest bound exists only in the separate
store's operation log, `CandleInputStore.recordOperation`, not in
`CandleInputCore`). -/
theorem C2_undo_history_unbounded (s : Candle.CoreState)
    (cs : List Candle.CandleData) :
    (cs.foldl Candle.commitHistory s).undoStack = s.undoStack ++ cs ∧
    (cs.foldl Candle.commitHistory s).undoStack.length =
      s.undoStack.length + cs.length := by
  refine ⟨Candle.foldl_commitHistory_undoStack s cs, ?_⟩
  rw [Candle.foldl_commitHistory_undoStack s cs, List.length_append]

/-- **C2 (amended) witness** — concrete instance of the amended claim. -/
theorem C2_undo_history_unbounded_witness :
    (([Candle.testCandle 0, Candle.testCandle 1].foldl Candle.commitHistory
      ⟨[], []⟩).undoStack = [Candle.testCandle 0, Candle.testCandle 1]) := by
  have h := C2_undo_history_unbounded ⟨[], []⟩
    [Candle.testCandle 0, Candle.testCandle 1]
  simpa using h.1

/-- **C5** — History linearity: after `commit(A); commit(B); undo(); commit(C)`
the redo stack is empty and the next `undo()` returns C (not B); in general
every commit clears the redo stack, so it is non-empty only between an undo
and the next commit. -/
theorem C5_history_linearity (s : Candle.CoreState) (A B C : Candle.CandleData) :
    (Candle.commitHistory (Candle.undo (Candle.commitHistory
        (Candle.commitHistory s A) B)).2 C).redoStack = [] ∧
    (Candle.undo (Candle.commitHistory (Candle.undo (Candle.commitHistory
        (Candle.commitHistory s A) B)).2 C)).1 =
      { success := true, candle := some C } ∧
    (∀ (st : Candle.CoreState) (c : Candle.CandleData),
      (Candle.commitHistory st c).redoStack = []) := by
  refine ⟨rfl, ?_, fun st c => rfl⟩
  have hc : (Candle.commitHistory (Candle.undo (Candle.commitHistory
      (Candle.commitHistory s A) B)).2 C).undoStack.getLast? = some C :=
    List.getLast?_concat _
  rw [Candle.undo_of_getLast hc]

/-- **C10** — For every history state with a non-empty undo stack, `undo()`
followed by `redo()` both succeed, return the same candle record, and
restore both stacks to their contents before the undo. -/
theorem C10_undo_redo_inverse (s : Candle.CoreState) (h : s.undoStack ≠ []) :
    (Candle.undo s).1.success = true ∧
    (Candle.redo (Candle.undo s).2).1.success = true ∧
    (Candle.redo (Candle.undo s).2).1.candle = (Candle.undo s).1.candle ∧
    (Candle.redo (Candle.undo s).2).2 = s := by
  have hsome : s.undoStack.getLast?.isSome := by
    rw [List.getLast?_isSome]
    exact h
  obtain ⟨c, hc⟩ := Option.isSome_iff_exists.mp hsome
  have hlast : c = s.undoStack.getLast h := by
    rw [List.getLast?_eq_getLast s.undoStack h] at hc
    exact (Option.some.inj hc).symm
  rw [Candle.undo_of_getLast hc]
  rw [Candle.redo_of_getLast
    (show ((⟨s.undoStack.dropLast, s.redoStack ++ [c]⟩ :
      Candle.CoreState)).redoStack.getLast? = some c from List.getLast?_concat _)]
  refine ⟨rfl, rfl, rfl, ?_⟩
  have h1 : s.undoStack.dropLast ++ [c] = s.undoStack := by
    rw [hlast]
    exact List.dropLast_append_getLast h
  have h2 : (s.redoStack ++ [c]).dropLast = s.redoStack := List.dropLast_concat
  cases s with
  | mk u r =>
    simp only at h1 h2 ⊢
    rw [h1, h2]

/-- **C10 witness** — concrete instance: one committed record, undo then
redo. -/
theorem C10_undo_redo_inverse_witness :
    ((⟨[Candle.testCandle 0], []⟩ : Candle.CoreState).undoStack ≠ []) ∧
    ((Candle.undo ⟨[Candle.testCandle 0], []⟩).1.success = true ∧
     (Candle.redo (Candle.undo (⟨[Candle.testCandle 0], []⟩ :
        Candle.CoreState)).2).1.success = true ∧
     (Candle.redo (Candle.undo (⟨[Candle.testCandle 0], []⟩ :
        Candle.CoreState)).2).1.candle =
       (Candle.undo (⟨[Candle.testCandle 0], []⟩ : Candle.CoreState)).1.candle ∧
     (Candle.redo (Candle.undo (⟨[Candle.testCandle 0], []⟩ :
        Candle.CoreState)).2).2 = ⟨[Candle.testCandle 0], []⟩) :=
  ⟨by simp, C10_undo_redo_inverse ⟨[Candle.testCandle 0], []⟩ (by simp)⟩

/-- **C6** — Rate-limit boundary (`CandleSecurityService.checkRateLimit`,
default quota 100 per 60 s window): starting with no window for the
identifier, the first call at `t0` passes; 99 further calls at times within
the window (≤ `t0 + 60000`) all pass — the 100th call passes; the 101st
call within the same window is rejected with the rate-limit reason; and the
first call after window expiry passes with the counter reset to 1. -/
theorem C6_rate_limit_boundary (m0 : Candle.RateLimitMap) (id : String)
    (t0 : Nat) (ts : List Nat) (t100 tAfter : Nat)
    (h0 : Candle.jsMapGet m0 id = none)
    (hlen : ts.length = 99)
    (hts : ∀ t ∈ ts, t ≤ t0 + Candle.RATE_LIMIT_WINDOW)
    (h100 : t100 ≤ t0 + Candle.RATE_LIMIT_WINDOW)
    (hAfter : tAfter > t0 + Candle.RATE_LIMIT_WINDOW) :
    (Candle.checkRateLimit m0 id t0).1.passed = true ∧
    (∀ res ∈ (Candle.runRateLimit (Candle.checkRateLimit m0 id t0).2 id ts).1,
      res.passed = true) ∧
    (Candle.checkRateLimit
        (Candle.runRateLimit (Candle.checkRateLimit m0 id t0).2 id ts).2
        id t100).1 =
      { passed := false, reason := some "Rate limit exceeded",
        threat := some "RATE_LIMIT" } ∧
    (Candle.checkRateLimit (Candle.checkRateLimit
        (Candle.runRateLimit (Candle.checkRateLimit m0 id t0).2 id ts).2
        id t100).2 id tAfter).1.passed = true ∧
    Candle.jsMapGet (Candle.checkRateLimit (Candle.checkRateLimit
        (Candle.runRateLimit (Candle.checkRateLimit m0 id t0).2 id ts).2
        id t100).2 id tAfter).2 id =
      some ⟨1, tAfter + Candle.RATE_LIMIT_WINDOW⟩ := by
  have step1 : Candle.checkRateLimit m0 id t0 =
      ({ passed := true },
       Candle.jsMapSet m0 id ⟨1, t0 + Candle.RATE_LIMIT_WINDOW⟩) := by
    unfold Candle.checkRateLimit
    rw [h0]
  rw [step1]
  have hget1 : Candle.jsMapGet (Candle.jsMapSet m0 id
      ⟨1, t0 + Candle.RATE_LIMIT_WINDOW⟩) id =
      some ⟨1, t0 + Candle.RATE_LIMIT_WINDOW⟩ :=
    Candle.jsMapGet_set_self m0 id _
  obtain ⟨hall, hget⟩ := Candle.runRateLimit_within ts _ 1 hget1 hts
    (by rw [hlen]; decide)
  rw [hlen] at hget
  have step101 : Candle.checkRateLimit
      (Candle.runRateLimit (Candle.jsMapSet m0 id
        ⟨1, t0 + Candle.RATE_LIMIT_WINDOW⟩) id ts).2 id t100 =
      ({ passed := false, reason := some "Rate limit exceeded",
         threat := some "RATE_LIMIT" },
       (Candle.runRateLimit (Candle.jsMapSet m0 id
        ⟨1, t0 + Candle.RATE_LIMIT_WINDOW⟩) id ts).2) := by
    unfold Candle.checkRateLimit
    rw [hget]
    simp only
    rw [if_neg (by omega), if_pos (by decide)]
  rw [step101]
  have stepAfter : Candle.checkRateLimit
      (Candle.runRateLimit (Candle.jsMapSet m0 id
        ⟨1, t0 + Candle.RATE_LIMIT_WINDOW⟩) id ts).2 id tAfter =
      ({ passed := true },
       Candle.jsMapSet (Candle.runRateLimit (Candle.jsMapSet m0 id
        ⟨1, t0 + Candle.RATE_LIMIT_WINDOW⟩) id ts).2 id
        ⟨1, tAfter + Candle.RATE_LIMIT_WINDOW⟩) := by
    unfold Candle.checkRateLimit
    rw [hget]
    simp only
    rw [if_pos (by omega)]
  rw [stepAfter]
  exact ⟨rfl, hall, rfl, rfl, Candle.jsMapGet_set_self _ id _⟩

/-- **C6 witness** — concrete run: identifier `"u"`, fresh map, first call at
time 0, then 99 calls at time 0, the 101st call at time 0 (rejected), and a
call at time 60001 (window expired, counter reset to 1). -/
theorem C6_rate_limit_boundary_witness :
    (Candle.jsMapGet ([] : Candle.RateLimitMap) "u" = none ∧
     (List.replicate 99 0).length = 99 ∧
     (∀ t ∈ List.replicate 99 (0 : Nat), t ≤ 0 + Candle.RATE_LIMIT_WINDOW) ∧
     (0 : Nat) ≤ 0 + Candle.RATE_LIMIT_WINDOW ∧
     (60001 : Nat) > 0 + Candle.RATE_LIMIT_WINDOW) ∧
    ((Candle.checkRateLimit [] "u" 0).1.passed = true ∧
     (∀ res ∈ (Candle.runRateLimit (Candle.checkRateLimit [] "u" 0).2 "u"
        (List.replicate 99 0)).1, res.passed = true) ∧
     (Candle.checkRateLimit
        (Candle.runRateLimit (Candle.checkRateLimit [] "u" 0).2 "u"
          (List.replicate 99 0)).2 "u" 0).1 =
      { passed := false, reason := some "Rate limit exceeded",
        threat := some "RATE_LIMIT" } ∧
     (Candle.checkRateLimit (Candle.checkRateLimit
        (Candle.runRateLimit (Candle.checkRateLimit [] "u" 0).2 "u"
          (List.replicate 99 0)).2 "u" 0).2 "u" 60001).1.passed = true ∧
     Candle.jsMapGet (Candle.checkRateLimit (Candle.checkRateLimit
        (Candle.runRateLimit (Candle.checkRateLimit [] "u" 0).2 "u"
          (List.replicate 99 0)).2 "u" 0).2 "u" 60001).2 "u" =
      some ⟨1, 60001 + Candle.RATE_LIMIT_WINDOW⟩) :=
  ⟨⟨rfl, by simp, by decide, by decide, by decide⟩,
   C6_rate_limit_boundary [] "u" 0 (List.replicate 99 0) 0 60001
     rfl (by simp) (by decide) (by decide) (by decide)⟩

/-- **C1 (counterexample)** — With every field set to
`"<script>alert(1)</script>"` (so in particular "any field" holds), the
Threat Screener (`performSecurityCheck`) does **not** reject: sanitization
runs before signature screening and reduces each field to `"1"`, so the
check passes and the Structural Validator subsequently runs —
`validate` returns a structural verdict (`isValid = true`) for this
invocation. -/
theorem C1_counterexample :
    (Candle.performSecurityCheck []
      ⟨"<script>alert(1)</script>", "<script>alert(1)</script>",
       "<script>alert(1)</script>", "<script>alert(1)</script>",
       "<script>alert(1)</script>"⟩ "candle_input_x" 0).1.passed = true ∧
    (Candle.performSecurityCheck []
      ⟨"<script>alert(1)</script>", "<script>alert(1)</script>",
       "<script>alert(1)</script>", "<script>alert(1)</script>",
       "<script>alert(1)</script>"⟩ "candle_input_x" 0).1.sanitizedData =
      some ⟨"1", "1", "1", "1", "1"⟩ ∧
    (Candle.validate [] ⟨"sess", ""⟩
      ⟨"<script>alert(1)</script>", "<script>alert(1)</script>",
       "<script>alert(1)</script>", "<script>alert(1)</script>",
       "<script>alert(1)</script>"⟩ 0).1.isValid = true := by
  with_unfolding_all decide

/-- **C1 (amended)** — The Threat Screener never rejects a pipeline
invocation on a signature, whatever the five raw field values: the
sanitizer runs first and strips every character other than digits, dots
and minus signs, and the serialized sanitized form can match none of the
fourteen injection signatures (in particular no script-tag signature).
The Structural Validator is therefore reached whenever the rate-limit and
numeric-range checks pass; a field value `"<script>alert(1)</script>"` is
reduced to `"1"` and validated structurally. -/
theorem C1_screener_passes_all_sanitized_input (d : Candle.CandleFormData) :
    (Candle.checkForSuspiciousPatterns (Candle.sanitizeFormData d)).passed = true := by
  have hlt : '<' ∉ Candle.suspiciousDataString (Candle.sanitizeFormData d) :=
    Candle.not_mem_suspiciousDataString (by decide) (by decide)
  have hj : 'j' ∉ Candle.suspiciousDataString (Candle.sanitizeFormData d) :=
    Candle.not_mem_suspiciousDataString (by decide) (by decide)
  have ha : 'a' ∉ Candle.suspiciousDataString (Candle.sanitizeFormData d) :=
    Candle.not_mem_suspiciousDataString (by decide) (by decide)
  have hb : 'b' ∉ Candle.suspiciousDataString (Candle.sanitizeFormData d) :=
    Candle.not_mem_suspiciousDataString (by decide) (by decide)
  have ht : 't' ∉ Candle.suspiciousDataString (Candle.sanitizeFormData d) :=
    Candle.not_mem_suspiciousDataString (by decide) (by decide)
  have hf : 'f' ∉ Candle.suspiciousDataString (Candle.sanitizeFormData d) :=
    Candle.not_mem_suspiciousDataString (by decide) (by decide)
  have he : '=' ∉ Candle.suspiciousDataString (Candle.sanitizeFormData d) :=
    Candle.not_mem_suspiciousDataString (by decide) (by decide)
  have h1 : Candle.containsSub "<script".data
      (Candle.suspiciousDataString (Candle.sanitizeFormData d)) = false :=
    Candle.containsSub_eq_false_of_missing (by decide) hlt
  have h2 : Candle.containsSub "javascript:".data
      (Candle.suspiciousDataString (Candle.sanitizeFormData d)) = false :=
    Candle.containsSub_eq_false_of_missing (c := 'j') (by decide) hj
  have h3 : Candle.containsOnHandler
      (Candle.suspiciousDataString (Candle.sanitizeFormData d)) = false :=
    Candle.containsOnHandler_eq_false he
  have h4 : Candle.containsSub "data:text/html".data
      (Candle.suspiciousDataString (Candle.sanitizeFormData d)) = false :=
    Candle.containsSub_eq_false_of_missing (c := 'a') (by decide) ha
  have h5 : Candle.containsSub "vbscript:".data
      (Candle.suspiciousDataString (Candle.sanitizeFormData d)) = false :=
    Candle.containsSub_eq_false_of_missing (c := 'b') (by decide) hb
  have h6 : Candle.containsSub "<iframe".data
      (Candle.suspiciousDataString (Candle.sanitizeFormData d)) = false :=
    Candle.containsSub_eq_false_of_missing (c := '<') (by decide) hlt
  have h7 : Candle.containsSub "<object".data
      (Candle.suspiciousDataString (Candle.sanitizeFormData d)) = false :=
    Candle.containsSub_eq_false_of_missing (c := '<') (by decide) hlt
  have h8 : Candle.containsSub "<embed".data
      (Candle.suspiciousDataString (Candle.sanitizeFormData d)) = false :=
    Candle.containsSub_eq_false_of_missing (c := '<') (by decide) hlt
  have h9 : Candle.pairPattern "select".data "from".data
      (Candle.suspiciousDataString (Candle.sanitizeFormData d)) = false :=
    Candle.pairPattern_eq_false_of_missing (c := 'f') (by decide) hf
  have h10 : Candle.pairPattern "union".data "select".data
      (Candle.suspiciousDataString (Candle.sanitizeFormData d)) = false :=
    Candle.pairPattern_eq_false_of_missing (c := 't') (by decide) ht
  have h11 : Candle.pairPattern "drop".data "table".data
      (Candle.suspiciousDataString (Candle.sanitizeFormData d)) = false :=
    Candle.pairPattern_eq_false_of_missing (c := 't') (by decide) ht
  have h12 : Candle.pairPattern "insert".data "into".data
      (Candle.suspiciousDataString (Candle.sanitizeFormData d)) = false :=
    Candle.pairPattern_eq_false_of_missing (c := 't') (by decide) ht
  have h13 : Candle.pairPattern "delete".data "from".data
      (Candle.suspiciousDataString (Candle.sanitizeFormData d)) = false :=
    Candle.pairPattern_eq_false_of_missing (c := 'f') (by decide) hf
  have h14 : Candle.pairPattern "update".data "set".data
      (Candle.suspiciousDataString (Candle.sanitizeFormData d)) = false :=
    Candle.pairPattern_eq_false_of_missing (c := 't') (by decide) ht
  unfold Candle.checkForSuspiciousPatterns
  simp only [h1, h2, h3, h4, h5, h6, h7, h8, h9, h10, h11, h12, h13, h14]
  rfl

/-- **C3 (counterexample)** — For open=`"1.0850"`, high=`"1.0800"`,
low=`"1.0840"`, close=`"1.0860"`, volume=`"1000000"` the Structural
Validator reports **two** errors, not exactly one: besides
`high ≥ max(open, close)`, rule 3 (`high ≥ low`) is also violated
(1.0800 < 1.0840), and the zod refinements accumulate. -/
theorem C3_counterexample :
    (Candle.validateFormData
      ⟨"1.0850", "1.0800", "1.0840", "1.0860", "1000000"⟩).errors.length = 2 := by
  with_unfolding_all decide

/-- **C3 (amended)** — Structural validation of open=`"1.0850"`,
high=`"1.0870"`, low=`"1.0840"`, close=`"1.0860"`, volume=`"1000000"`
returns valid=true with no errors and no warnings; the same input with
high=`"1.0800"` returns exactly two errors, both attached to field
`high`: one indicating `high ≥ max(open, close)` is violated and one
indicating `high ≥ low` is violated. -/
theorem C3_structural_scenarios :
    Candle.validateFormData
      ⟨"1.0850", "1.0870", "1.0840", "1.0860", "1000000"⟩ = ⟨true, [], []⟩ ∧
    Candle.validateFormData
      ⟨"1.0850", "1.0800", "1.0840", "1.0860", "1000000"⟩ =
      ⟨false,
       [⟨"high", "Максимальная цена должна быть >= max(Open, Close)", "custom"⟩,
        ⟨"high", "Максимальная цена должна быть >= минимальной", "custom"⟩],
       []⟩ := by
  with_unfolding_all decide

/-- **C4** — For every save invocation that passes validation (both the
security+structural `validate` and the final `validateCandleData`), a
failing persistence callback makes `save` return `success = false`
carrying the thrown error as data — no exception escapes — with the undo
and redo stacks unchanged; and the record is pushed to the undo history
exactly when the awaited callback completes successfully (then the push
is `commitHistory` of the converted record). -/
theorem C4_commit_failure_no_push
    (st : Candle.CoreState) (m : Candle.RateLimitMap)
    (session : Candle.TradingSession) (formData : Candle.CandleFormData)
    (candleIndex : Nat) (candleDateTime : String)
    (previousCandle : Option Candle.CandleData) (now : Nat) (createdAt : String)
    (e : String)
    (hval : (Candle.validate m session formData now).1.isValid = true)
    (hdata : (Candle.validateCandleData (Candle.formDataToCandleData session
      (Candle.sanitizeFormData formData) candleIndex candleDateTime
      createdAt)).isValid = true) :
    (Candle.save st m session formData candleIndex candleDateTime previousCandle
        now createdAt (some (Except.error e))).1 =
      { success := false, errors := some [e] } ∧
    (Candle.save st m session formData candleIndex candleDateTime previousCandle
        now createdAt (some (Except.error e))).2.1 = st ∧
    (Candle.save st m session formData candleIndex candleDateTime previousCandle
        now createdAt (some (Except.ok ()))).1.success = true ∧
    (Candle.save st m session formData candleIndex candleDateTime previousCandle
        now createdAt (some (Except.ok ()))).2.1 =
      Candle.commitHistory st (Candle.formDataToCandleData session
        (Candle.sanitizeFormData formData) candleIndex candleDateTime
        createdAt) := by
  refine ⟨?_, ?_, ?_, ?_⟩ <;>
    simp only [Candle.save, hval, hdata, Bool.not_true, Bool.false_eq_true,
      if_false]

/-- **C4 witness** — a concrete passing save whose callback rejects. -/
theorem C4_commit_failure_no_push_witness :
    ((Candle.validate [] ⟨"123e4567-e89b-12d3-a456-426614174000", ""⟩
        ⟨"1.0850", "1.0870", "1.0840", "1.0860", "1000000"⟩ 0).1.isValid = true ∧
     (Candle.validateCandleData (Candle.formDataToCandleData
        ⟨"123e4567-e89b-12d3-a456-426614174000", ""⟩
        (Candle.sanitizeFormData
          ⟨"1.0850", "1.0870", "1.0840", "1.0860", "1000000"⟩)
        0 "2024-01-01T00:00:00Z" "2024-01-01T00:00:00.000Z")).isValid = true) ∧
    ((Candle.save ⟨[], []⟩ [] ⟨"123e4567-e89b-12d3-a456-426614174000", ""⟩
        ⟨"1.0850", "1.0870", "1.0840", "1.0860", "1000000"⟩ 0
        "2024-01-01T00:00:00Z" none 0 "2024-01-01T00:00:00.000Z"
        (some (Except.error "persistence failed"))).1 =
      { success := false, errors := some ["persistence failed"] } ∧
     (Candle.save ⟨[], []⟩ [] ⟨"123e4567-e89b-12d3-a456-426614174000", ""⟩
        ⟨"1.0850", "1.0870", "1.0840", "1.0860", "1000000"⟩ 0
        "2024-01-01T00:00:00Z" none 0 "2024-01-01T00:00:00.000Z"
        (some (Except.error "persistence failed"))).2.1 = ⟨[], []⟩ ∧
     (Candle.save ⟨[], []⟩ [] ⟨"123e4567-e89b-12d3-a456-426614174000", ""⟩
        ⟨"1.0850", "1.0870", "1.0840", "1.0860", "1000000"⟩ 0
        "2024-01-01T00:00:00Z" none 0 "2024-01-01T00:00:00.000Z"
        (some (Except.ok ()))).1.success = true ∧
     (Candle.save ⟨[], []⟩ [] ⟨"123e4567-e89b-12d3-a456-426614174000", ""⟩
        ⟨"1.0850", "1.0870", "1.0840", "1.0860", "1000000"⟩ 0
        "2024-01-01T00:00:00Z" none 0 "2024-01-01T00:00:00.000Z"
        (some (Except.ok ()))).2.1 =
      Candle.commitHistory ⟨[], []⟩ (Candle.formDataToCandleData
        ⟨"123e4567-e89b-12d3-a456-426614174000", ""⟩
        (Candle.sanitizeFormData
          ⟨"1.0850", "1.0870", "1.0840", "1.0860", "1000000"⟩)
        0 "2024-01-01T00:00:00Z" "2024-01-01T00:00:00.000Z")) :=
  ⟨⟨by with_unfolding_all decide, by with_unfolding_all decide⟩,
   C4_commit_failure_no_push ⟨[], []⟩ [] _ _ 0 "2024-01-01T00:00:00Z" none 0
     "2024-01-01T00:00:00.000Z" "persistence failed"
     (by with_unfolding_all decide) (by with_unfolding_all decide)⟩

/-- **C8 (counterexample)** — With an empty history window but an entered
`open` field, the `high` suggestions are non-empty (derived from the
entered fields alone), contradicting "empty history yields the empty
list". -/
theorem C8_counterexample :
    Candle.getSuggestions .high ⟨some "1", none, none, none, none⟩ [] ≠ [] := by
  with_unfolding_all decide

/-- **C8 (amended)** — The suggestion operation is total (never throws, by
construction of the embedding); its result is sorted by descending
confidence, and ties keep insertion order (for every confidence value,
filtering the result and the pre-sort candidate list gives the same
sequence); an empty history yields the empty list for the fields `open`
and `volume` (for `high`/`low`/`close`, candidates can be derived from
already-entered fields alone — and `low` even produces a degenerate
`Infinity` candidate from `Math.min()` when no field is entered). -/
theorem C8_suggestions_sorted_stable (field : Candle.SuggestionField)
    (formData : Candle.PartialFormData) (previousCandles : List Candle.CandleData) :
    List.Sorted Candle.confGe (Candle.getSuggestions field formData previousCandles) ∧
    (∀ n : Nat,
      (Candle.getSuggestions field formData previousCandles).filter
          (fun o => o.confidence == n) =
        (Candle.rawSuggestions field formData previousCandles).filter
          (fun o => o.confidence == n)) ∧
    Candle.getSuggestions .open_ formData [] = [] ∧
    Candle.getSuggestions .volume formData [] = [] := by
  refine ⟨?_, ?_, rfl, rfl⟩
  · cases field
    · exact Candle.sorted_getSuggestionsForOpen _
    · exact Candle.sorted_getSuggestionsForHigh _ _
    · exact Candle.sorted_getSuggestionsForLow _ _
    · exact Candle.sorted_sortByConfidenceDesc _
    · exact Candle.sorted_sortByConfidenceDesc _
  · intro n
    cases field
    · rfl
    · rfl
    · rfl
    · exact Candle.filter_sortByConfidenceDesc n _
    · exact Candle.filter_sortByConfidenceDesc n _

/-- **C9 (counterexample)** — Two records sharing a timestamp break
convergence: after `rebuild([c1, c2])` (same `candle_datetime`, ids "1"
and "2") and `removeOne "1"`, the byTimestamp mapping has lost the shared
instant entirely, while a direct rebuild of the final record set maps it
to `c2`. -/
theorem C9_counterexample :
    Candle.getCandleByTimestamp
      (Candle.applyIndexOps (fun _ => 0)
        (Candle.buildIndices (fun _ => 0)
          [Candle.testCandle 1, Candle.testCandle 2])
        [Candle.IndexOp.remove "1"]) 0 = none ∧
    Candle.getCandleByTimestamp
      (Candle.buildIndices (fun _ => 0)
        (Candle.applyListOps [Candle.testCandle 1, Candle.testCandle 2]
          [Candle.IndexOp.remove "1"])) 0 = some (Candle.testCandle 2) := by
  with_unfolding_all decide

/-- **C9 (amended)** — Provided all records involved are well-formed
(pairwise-distinct timestamps and pairwise-distinct defined ids, with
every added record fresh for the then-current set), rebuilding the
initial record set and then applying any sequence of `addOne`/`removeOne`
operations yields `byId`, `bySession` and `byTimestamp` contents identical
(at every key) to a single rebuild of the final record set. -/
theorem C9_index_convergence (parseTime : String → Nat)
    (init : List Candle.CandleData) (ops : List Candle.IndexOp)
    (hwf : Candle.WFRecords parseTime init)
    (hops : Candle.ValidOps parseTime init ops) :
    (∀ id, Candle.getCandleById
        (Candle.applyIndexOps parseTime
          (Candle.buildIndices parseTime init) ops) id =
      Candle.getCandleById
        (Candle.buildIndices parseTime (Candle.applyListOps init ops)) id) ∧
    (∀ sid, Candle.getCandlesBySessionId
        (Candle.applyIndexOps parseTime
          (Candle.buildIndices parseTime init) ops) sid =
      Candle.getCandlesBySessionId
        (Candle.buildIndices parseTime (Candle.applyListOps init ops)) sid) ∧
    (∀ ts, Candle.getCandleByTimestamp
        (Candle.applyIndexOps parseTime
          (Candle.buildIndices parseTime init) ops) ts =
      Candle.getCandleByTimestamp
        (Candle.buildIndices parseTime (Candle.applyListOps init ops)) ts) := by
  have h1 := Candle.indexInv_applyOps ops init _
    (Candle.indexInv_buildIndices init hwf) hwf hops
  have h2 := Candle.indexInv_buildIndices (Candle.applyListOps init ops)
    (Candle.wf_applyOps ops init hwf hops)
  refine ⟨?_, ?_, ?_⟩
  · intro id
    unfold Candle.getCandleById
    rw [h1.idPart, h2.idPart]
  · intro sid
    rw [h1.sessionPart sid, h2.sessionPart sid]
  · intro ts
    unfold Candle.getCandleByTimestamp
    rw [h1.tsPart, h2.tsPart]

/-- **C9 witness** — a concrete well-formed run: two records with distinct
ids and timestamps, one addition and one removal, with all three lookups
agreeing with the direct rebuild. -/
theorem C9_index_convergence_witness :
    (Candle.WFRecords String.length [{ Candle.testCandle 1 with candle_datetime := "a" }] ∧
     Candle.ValidOps String.length [{ Candle.testCandle 1 with candle_datetime := "a" }]
       [Candle.IndexOp.add { Candle.testCandle 2 with candle_datetime := "bb" },
        Candle.IndexOp.remove "1"]) ∧
    (Candle.getCandleById
        (Candle.applyIndexOps String.length
          (Candle.buildIndices String.length
            [{ Candle.testCandle 1 with candle_datetime := "a" }])
          [Candle.IndexOp.add { Candle.testCandle 2 with candle_datetime := "bb" },
           Candle.IndexOp.remove "1"]) "2" =
      Candle.getCandleById
        (Candle.buildIndices String.length
          (Candle.applyListOps [{ Candle.testCandle 1 with candle_datetime := "a" }]
            [Candle.IndexOp.add { Candle.testCandle 2 with candle_datetime := "bb" },
             Candle.IndexOp.remove "1"])) "2") ∧
    (Candle.getCandlesBySessionId
        (Candle.applyIndexOps String.length
          (Candle.buildIndices String.length
            [{ Candle.testCandle 1 with candle_datetime := "a" }])
          [Candle.IndexOp.add { Candle.testCandle 2 with candle_datetime := "bb" },
           Candle.IndexOp.remove "1"]) "s" =
      Candle.getCandlesBySessionId
        (Candle.buildIndices String.length
          (Candle.applyListOps [{ Candle.testCandle 1 with candle_datetime := "a" }]
            [Candle.IndexOp.add { Candle.testCandle 2 with candle_datetime := "bb" },
             Candle.IndexOp.remove "1"])) "s") ∧
    (Candle.getCandleByTimestamp
        (Candle.applyIndexOps String.length
          (Candle.buildIndices String.length
            [{ Candle.testCandle 1 with candle_datetime := "a" }])
          [Candle.IndexOp.add { Candle.testCandle 2 with candle_datetime := "bb" },
           Candle.IndexOp.remove "1"]) 2 =
      Candle.getCandleByTimestamp
        (Candle.buildIndices String.length
          (Candle.applyListOps [{ Candle.testCandle 1 with candle_datetime := "a" }]
            [Candle.IndexOp.add { Candle.testCandle 2 with candle_datetime := "bb" },
             Candle.IndexOp.remove "1"])) 2) := by
  have hwf : Candle.WFRecords String.length
      [{ Candle.testCandle 1 with candle_datetime := "a" }] := by
    constructor <;> decide
  have hops : Candle.ValidOps String.length
      [{ Candle.testCandle 1 with candle_datetime := "a" }]
      [Candle.IndexOp.add { Candle.testCandle 2 with candle_datetime := "bb" },
       Candle.IndexOp.remove "1"] := by
    refine ⟨?_, ?_, trivial⟩ <;> decide
  have h := C9_index_convergence String.length
    [{ Candle.testCandle 1 with candle_datetime := "a" }]
    [Candle.IndexOp.add { Candle.testCandle 2 with candle_datetime := "bb" },
     Candle.IndexOp.remove "1"] hwf hops
  exact ⟨⟨hwf, hops⟩, h.1 "2", h.2.1 "s", h.2.2 2⟩
